import Mathlib

/-!
# Verification of the jinpy-utils cache subsystem

A shallow embedding in Lean 4 of the cache subsystem of the jinpy-utils
repository: TTL bookkeeping, key normalization, serializers, the memory and
file backends with lazy expiry and bounded-capacity eviction, manager
configuration validation, and the redis backend's error-translation contract.

The repository slice available here contains the package surface and the test
suite; the implementation modules themselves (`jinpy_utils/cache/utils.py`,
`backends.py`, `config.py`, `core.py`, `exceptions.py`) are not present.
Every definition below is therefore modelled from the specification's
description of those modules, with the test suite fixing the concrete
behavior wherever it exercises it.

Conventions of the embedding:
* Instants and TTL durations are rationals (seconds); the clock is an
  explicit `now` parameter threaded through every operation.
* Python byte strings are `List Nat` (each element a byte value).
* Fallible operations return `Except CacheError`, with one `CacheError`
  constructor per exception class of `jinpy_utils.cache.exceptions`
  (plus `typeError`/`valueError` for the built-in exceptions the utility
  functions raise).
-/

namespace JinpyCache

/-- Modelled from the spec: the error taxonomy of §7.  One constructor per
exception kind that the cache layer can surface: `keyError` is
`CacheKeyError` (invalid key or invalid numeric-operation argument),
`configurationError` is `CacheConfigurationError`, `connectionError` is
`CacheConnectionError`, `backendError` is `CacheBackendError` (catch-all,
"always carrying the original cause" — the `cause` field), and
`serializationError` is `CacheSerializationError`.  `typeError` and
`valueError` model the Python built-ins raised by the serializer utilities
(`bytes` serializer on non-bytes input; unknown serializer name). -/
inductive CacheError where
  | keyError (message : String)
  | configurationError (message : String)
  | connectionError (message : String) (cause : Option String)
  | backendError (message : String) (cause : Option String)
  | serializationError (message : String)
  | typeError (message : String)
  | valueError (message : String)
deriving DecidableEq, Repr

/-! ## Expiry/TTL utility (`jinpy_utils/cache/utils.py`) -/

/-- Modelled from the spec (§4.1, `compute_expiry`): given no TTL, returns
"no expiry"; given a TTL, returns `now + ttl` as the absolute expiry
instant.  For `ttl ≤ 0` this instant is at or before `now`, so the entry is
immediately treated as expired by the at-or-before-now expiry checks
below. -/
def compute_expiry (now : ℚ) (ttl : Option ℚ) : Option ℚ :=
  match ttl with
  | none => none
  | some t => some (now + t)

/-- Modelled from the spec (§4.1, `remaining_ttl`): "no expiry" maps to
"no expiry"; a past or equal-to-now instant maps to `0` (never negative); a
future instant maps to the positive remaining seconds. -/
def remaining_ttl (now : ℚ) (expiry : Option ℚ) : Option ℚ :=
  match expiry with
  | none => none
  | some e => some (max (e - now) 0)

/-- An entry with expiry instant `e` is expired exactly when `e` is at or
before `now`; an entry with no expiry never expires. -/
def isExpired (now : ℚ) (expiry : Option ℚ) : Bool :=
  match expiry with
  | none => false
  | some e => e ≤ now

/-! ## Key normalizer (`jinpy_utils/cache/utils.py`, `normalize_key`) -/

/-- The whitespace and zero-width/invisible Unicode characters removed by
key normalization: ASCII whitespace (space, tab, line feed, vertical tab,
form feed, carriage return), the zero-width range U+200B–U+200F, the word
joiner U+2060, and the BOM U+FEFF. -/
def isInvisibleChar (c : Char) : Bool :=
  c == ' ' || c == '\t' || c == '\n' || c == '\r' ||
  c.toNat == 0x0b || c.toNat == 0x0c ||
  (0x200b ≤ c.toNat && c.toNat ≤ 0x200f) ||
  c.toNat == 0x2060 || c.toNat == 0xfeff

/-- Modelled from the spec (§4.2): strips leading/trailing whitespace and
all zero-width/invisible Unicode characters from a key, and fails with the
invalid-argument error of the `CacheKeyError` class when the normalized
result is empty.  Per the test suite (`normalize_key("a\n\tb\u200b") ==
"ab"`), whitespace characters are removed everywhere in the key, not only
at its ends, so stripping the ends is subsumed by one filter. -/
def normalize_key (key : String) : Except CacheError String :=
  let cleaned := key.toList.filter (fun c => !isInvisibleChar c)
  if cleaned.isEmpty then
    .error (.keyError "cache key is empty after normalization")
  else
    .ok (String.mk cleaned)

/-! ## UTF-8

The plain-string serializer "UTF-8-encodes" text, the structured-text
serializer encodes its canonical text through UTF-8, and the file backend
stores sidecar instants as UTF-8 text, so the embedding carries a real
UTF-8 codec on `List Nat` byte strings. -/

/-- The UTF-8 byte sequence of one Unicode scalar value (1–4 bytes). -/
def utf8EncodeChar (c : Char) : List Nat :=
  if c.toNat < 0x80 then [c.toNat]
  else if c.toNat < 0x800 then
    [0xc0 + c.toNat / 0x40, 0x80 + c.toNat % 0x40]
  else if c.toNat < 0x10000 then
    [0xe0 + c.toNat / 0x1000, 0x80 + c.toNat / 0x40 % 0x40,
     0x80 + c.toNat % 0x40]
  else
    [0xf0 + c.toNat / 0x40000, 0x80 + c.toNat / 0x1000 % 0x40,
     0x80 + c.toNat / 0x40 % 0x40, 0x80 + c.toNat % 0x40]

/-- The UTF-8 byte sequence of a character list. -/
def utf8EncodeChars : List Char → List Nat
  | [] => []
  | c :: cs => utf8EncodeChar c ++ utf8EncodeChars cs

/-- Decode the continuation bytes of a two-byte UTF-8 sequence with lead
byte `b0`. -/
def utf8DecodeTail2 (b0 : Nat) : List Nat → Option (Char × List Nat)
  | b1 :: bs1 =>
    if 0x80 ≤ b1 ∧ b1 < 0xc0 then
      some (Char.ofNat ((b0 - 0xc0) * 0x40 + (b1 - 0x80)), bs1)
    else none
  | [] => none

/-- Decode the continuation bytes of a three-byte UTF-8 sequence with lead
byte `b0`, rejecting overlong forms and surrogates. -/
def utf8DecodeTail3 (b0 : Nat) : List Nat → Option (Char × List Nat)
  | b1 :: b2 :: bs2 =>
    if 0x80 ≤ b1 ∧ b1 < 0xc0 ∧ 0x80 ≤ b2 ∧ b2 < 0xc0 then
      if 0x800 ≤ (b0 - 0xe0) * 0x1000 + (b1 - 0x80) * 0x40 + (b2 - 0x80) ∧
         ((b0 - 0xe0) * 0x1000 + (b1 - 0x80) * 0x40 + (b2 - 0x80) < 0xd800 ∨
          0xdfff < (b0 - 0xe0) * 0x1000 + (b1 - 0x80) * 0x40 + (b2 - 0x80)) then
        some (Char.ofNat ((b0 - 0xe0) * 0x1000 + (b1 - 0x80) * 0x40 + (b2 - 0x80)), bs2)
      else none
    else none
  | _ => none

/-- Decode the continuation bytes of a four-byte UTF-8 sequence with lead
byte `b0`, rejecting overlong and out-of-range values. -/
def utf8DecodeTail4 (b0 : Nat) : List Nat → Option (Char × List Nat)
  | b1 :: b2 :: b3 :: bs3 =>
    if 0x80 ≤ b1 ∧ b1 < 0xc0 ∧ 0x80 ≤ b2 ∧ b2 < 0xc0 ∧ 0x80 ≤ b3 ∧ b3 < 0xc0 then
      if 0x10000 ≤ (b0 - 0xf0) * 0x40000 + (b1 - 0x80) * 0x1000 +
            (b2 - 0x80) * 0x40 + (b3 - 0x80) ∧
          (b0 - 0xf0) * 0x40000 + (b1 - 0x80) * 0x1000 +
            (b2 - 0x80) * 0x40 + (b3 - 0x80) < 0x110000 then
        some (Char.ofNat ((b0 - 0xf0) * 0x40000 + (b1 - 0x80) * 0x1000 +
          (b2 - 0x80) * 0x40 + (b3 - 0x80)), bs3)
      else none
    else none
  | _ => none

/-- Decode one UTF-8-encoded scalar value from the front of a byte string,
returning the decoded character and the remaining bytes.  Rejects
continuation bytes in lead position, overlong forms, surrogates, and
out-of-range values. -/
def utf8DecodeChar : List Nat → Option (Char × List Nat)
  | [] => none
  | b0 :: bs =>
    if b0 < 0x80 then some (Char.ofNat b0, bs)
    else if b0 < 0xc2 then none
    else if b0 < 0xe0 then utf8DecodeTail2 b0 bs
    else if b0 < 0xf0 then utf8DecodeTail3 b0 bs
    else if b0 < 0xf5 then utf8DecodeTail4 b0 bs
    else none

/-- Decode a whole byte string as UTF-8 text, with an explicit fuel bound
on the number of characters produced. -/
def utf8DecodeChars : Nat → List Nat → Option (List Char)
  | _, [] => some []
  | 0, _ :: _ => none
  | fuel + 1, b :: bs =>
    match utf8DecodeChar (b :: bs) with
    | none => none
    | some (c, rest) => (utf8DecodeChars fuel rest).map (fun cs => c :: cs)

/-- Encode a string as its UTF-8 bytes. -/
def utf8Encode (s : String) : List Nat :=
  utf8EncodeChars s.toList

/-- Decode a byte string as UTF-8 text; `none` on any ill-formed input.
One character consumes at least one byte, so the byte count bounds the
character count and serves as decoding fuel. -/
def utf8Decode (bs : List Nat) : Option String :=
  (utf8DecodeChars bs.length bs).map String.mk

/-- A scalar value is below the surrogate range or above it and below
`0x110000`. -/
theorem char_toNat_valid (c : Char) :
    c.toNat < 0xd800 ∨ (0xdfff < c.toNat ∧ c.toNat < 0x110000) :=
  c.valid

/-- Decoding inverts encoding, one character at a time, for any trailing
bytes. -/
theorem utf8DecodeChar_encodeChar (c : Char) (rest : List Nat) :
    utf8DecodeChar (utf8EncodeChar c ++ rest) = some (c, rest) := by
  have hv := char_toNat_valid c
  by_cases h1 : c.toNat < 0x80
  · rw [utf8EncodeChar, if_pos h1]
    show utf8DecodeChar (c.toNat :: rest) = some (c, rest)
    rw [utf8DecodeChar, if_pos h1, Char.ofNat_toNat]
  · by_cases h2 : c.toNat < 0x800
    · rw [utf8EncodeChar, if_neg h1, if_pos h2]
      show utf8DecodeChar
        ((0xc0 + c.toNat / 0x40) :: (0x80 + c.toNat % 0x40) :: rest) =
        some (c, rest)
      rw [utf8DecodeChar]
      rw [if_neg (by omega), if_neg (by omega), if_pos (by omega)]
      rw [utf8DecodeTail2, if_pos (by omega)]
      have harith :
          (0xc0 + c.toNat / 0x40 - 0xc0) * 0x40 + (0x80 + c.toNat % 0x40 - 0x80) =
            c.toNat := by omega
      rw [harith, Char.ofNat_toNat]
    · by_cases h3 : c.toNat < 0x10000
      · rw [utf8EncodeChar, if_neg h1, if_neg h2, if_pos h3]
        show utf8DecodeChar
          ((0xe0 + c.toNat / 0x1000) :: (0x80 + c.toNat / 0x40 % 0x40) ::
            (0x80 + c.toNat % 0x40) :: rest) = some (c, rest)
        rw [utf8DecodeChar]
        rw [if_neg (by omega), if_neg (by omega), if_neg (by omega),
          if_pos (by omega)]
        rw [utf8DecodeTail3, if_pos (by omega)]
        have harith :
            (0xe0 + c.toNat / 0x1000 - 0xe0) * 0x1000 +
              (0x80 + c.toNat / 0x40 % 0x40 - 0x80) * 0x40 +
              (0x80 + c.toNat % 0x40 - 0x80) = c.toNat := by omega
        rw [if_pos (by rw [harith]; omega), harith, Char.ofNat_toNat]
      · rw [utf8EncodeChar, if_neg h1, if_neg h2, if_neg h3]
        show utf8DecodeChar
          ((0xf0 + c.toNat / 0x40000) :: (0x80 + c.toNat / 0x1000 % 0x40) ::
            (0x80 + c.toNat / 0x40 % 0x40) :: (0x80 + c.toNat % 0x40) :: rest) =
          some (c, rest)
        rw [utf8DecodeChar]
        rw [if_neg (by omega), if_neg (by omega), if_neg (by omega),
          if_neg (by omega), if_pos (by omega)]
        rw [utf8DecodeTail4, if_pos (by omega)]
        have harith :
            (0xf0 + c.toNat / 0x40000 - 0xf0) * 0x40000 +
              (0x80 + c.toNat / 0x1000 % 0x40 - 0x80) * 0x1000 +
              (0x80 + c.toNat / 0x40 % 0x40 - 0x80) * 0x40 +
              (0x80 + c.toNat % 0x40 - 0x80) = c.toNat := by omega
        rw [if_pos (by rw [harith]; omega), harith, Char.ofNat_toNat]

/-- Every character encodes to at least one byte. -/
theorem utf8EncodeChar_ne_nil (c : Char) : utf8EncodeChar c ≠ [] := by
  rw [utf8EncodeChar]
  split_ifs <;> simp

/-- The byte count of a UTF-8 encoding bounds the character count. -/
theorem length_le_utf8EncodeChars (cs : List Char) :
    cs.length ≤ (utf8EncodeChars cs).length := by
  induction cs with
  | nil => simp [utf8EncodeChars]
  | cons c cs ih =>
    rw [utf8EncodeChars]
    have hc : 1 ≤ (utf8EncodeChar c).length := by
      cases h : utf8EncodeChar c with
      | nil => exact absurd h (utf8EncodeChar_ne_nil c)
      | cons a as => simp
    simp only [List.length_cons, List.length_append]
    omega

/-- Decoding inverts encoding on character lists, given enough fuel. -/
theorem utf8DecodeChars_encodeChars :
    ∀ (cs : List Char) (fuel : Nat), cs.length ≤ fuel →
      utf8DecodeChars fuel (utf8EncodeChars cs) = some cs := by
  intro cs
  induction cs with
  | nil =>
    intro fuel _
    rw [utf8EncodeChars]
    cases fuel <;> rfl
  | cons c cs ih =>
    intro fuel hfuel
    cases fuel with
    | zero => simp at hfuel
    | succ f =>
      rw [utf8EncodeChars]
      rcases h : utf8EncodeChar c with _ | ⟨a, as⟩
      · exact absurd h (utf8EncodeChar_ne_nil c)
      · have hdec : utf8DecodeChar (utf8EncodeChar c ++ utf8EncodeChars cs) =
            some (c, utf8EncodeChars cs) := utf8DecodeChar_encodeChar c _
        rw [h, List.cons_append] at hdec
        rw [List.cons_append]
        rw [utf8DecodeChars, hdec]
        show Option.map (fun cs => c :: cs) (utf8DecodeChars f (utf8EncodeChars cs)) =
          some (c :: cs)
        rw [ih f (by simpa using hfuel)]
        rfl

/-- UTF-8 round trip: decoding the encoding of any string yields that
string. -/
theorem utf8Decode_encode (s : String) : utf8Decode (utf8Encode s) = some s := by
  rw [utf8Decode, utf8Encode,
    utf8DecodeChars_encodeChars s.toList _ (length_le_utf8EncodeChars s.toList)]
  rfl

/-- `Char.toNat` inverts `Char.ofNat` on valid scalar values. -/
theorem char_toNat_ofNat (n : Nat) (h : n.isValidChar) :
    (Char.ofNat n).toNat = n := by
  unfold Char.ofNat
  rw [dif_pos h]
  rfl

/-! ## Python values

The cache stores arbitrary Python objects.  The embedding's value universe
covers the shapes the cache subsystem and its tests traffic in: `None`,
booleans, integers, text strings, byte strings, lists, tuples and
string-keyed dictionaries, closed under nesting. -/

/-- A Python value, as stored in and returned from cache backends. -/
inductive PyValue where
  | none
  | bool (b : Bool)
  | int (n : Int)
  | str (s : String)
  | bytes (bs : List Nat)
  | list (elems : List PyValue)
  | tuple (elems : List PyValue)
  | dict (entries : List (String × PyValue))

mutual

/-- The Python `repr` form of a value (simplified: strings render between
single quotation marks without escaping, byte strings render their code
points). -/
def pyRepr : PyValue → String
  | .none => "None"
  | .bool true => "True"
  | .bool false => "False"
  | .int n => toString n
  | .str s => "'" ++ s ++ "'"
  | .bytes bs => "b'" ++ String.mk (bs.map Char.ofNat) ++ "'"
  | .list es => "[" ++ pyReprSeq es ++ "]"
  | .tuple es => "(" ++ pyReprSeq es ++ ")"
  | .dict kvs => String.mk [Char.ofNat 0x7b] ++ pyReprEntries kvs ++
      String.mk [Char.ofNat 0x7d]

/-- Comma-separated `repr` forms of a sequence of values. -/
def pyReprSeq : List PyValue → String
  | [] => ""
  | [v] => pyRepr v
  | v :: vs => pyRepr v ++ ", " ++ pyReprSeq vs

/-- Comma-separated `repr` forms of a dictionary's entries. -/
def pyReprEntries : List (String × PyValue) → String
  | [] => ""
  | [(k, v)] => "'" ++ k ++ "': " ++ pyRepr v
  | (k, v) :: kvs => "'" ++ k ++ "': " ++ pyRepr v ++ ", " ++ pyReprEntries kvs

end

/-- The Python `str` form of a value: a string is itself; anything else
renders through `repr`-style formatting.  In particular `str(123)` is
`"123"`. -/
def pyStr : PyValue → String
  | .str s => s
  | v => pyRepr v

/-- Whether a value is a text string. -/
def isStrValue : PyValue → Bool
  | .str _ => true
  | _ => false

/-! ## Serializers (`jinpy_utils/cache/utils.py`, `default_serializer`)

Each serializer is a pair of an encoder `PyValue → bytes` and a decoder
`bytes → PyValue`. -/

/-- Modelled from the spec (§4.3, plain-string kind): "encode calls the
value's string form then UTF-8-encodes it". -/
def strSerialize (v : PyValue) : Except CacheError (List Nat) :=
  .ok (utf8Encode (pyStr v))

/-- Modelled from the spec (§4.3, plain-string kind): "decode
UTF-8-decodes". -/
def strDeserialize (bs : List Nat) : Except CacheError PyValue :=
  match utf8Decode bs with
  | some s => .ok (.str s)
  | Option.none => .error (.serializationError "stored bytes are not valid UTF-8")

/-- Modelled from the spec (§4.3, raw-bytes kind): "encode is the identity
for byte sequences and fails with a type error for any other input". -/
def bytesSerialize (v : PyValue) : Except CacheError (List Nat) :=
  match v with
  | .bytes bs => .ok bs
  | _ => .error (.typeError "bytes serializer requires a bytes value")

/-- Modelled from the spec (§4.3, raw-bytes kind): "decode is the
identity". -/
def bytesDeserialize (bs : List Nat) : Except CacheError PyValue :=
  .ok (.bytes bs)

/-! ## Claim C10 -/

/-- C10: for the plain-string serializer kind, encode maps any value `v`
to the UTF-8 encoding of its string form and decode maps bytes back to a
string, so `decode(encode(v))` equals `str(v)` rather than `v` itself for
every non-string input — for example `encode(123)` yields `b"123"` and the
round trip yields the string `"123"`, not the integer `123`. -/
theorem claim_C10_str_serializer :
    strSerialize (.int 123) = .ok [49, 50, 51] ∧
    strDeserialize [49, 50, 51] = .ok (.str "123") ∧
    (∀ v : PyValue,
      strSerialize v = .ok (utf8Encode (pyStr v)) ∧
      strDeserialize (utf8Encode (pyStr v)) = .ok (.str (pyStr v))) ∧
    (∀ v : PyValue, isStrValue v = false → PyValue.str (pyStr v) ≠ v) := by
  refine ⟨rfl, rfl, fun v => ⟨rfl, ?_⟩, fun v h => ?_⟩
  · simp only [strDeserialize, utf8Decode_encode]
  · cases v <;> simp_all [isStrValue]

/-- Witness for C10 at the non-string input `123`: the round trip returns
the string `"123"`, which differs from the integer `123`. -/
theorem claim_C10_str_serializer_witness :
    isStrValue (.int 123) = false ∧ PyValue.str (pyStr (.int 123)) ≠ .int 123 :=
  ⟨rfl, claim_C10_str_serializer.2.2.2 (.int 123) rfl⟩

/-! ## Structured-text (JSON) serializer

The structured-text serializer renders a JSON-representable value as
canonical JSON text (no optional whitespace), UTF-8-encodes the text, and
decodes by parsing.  The parser accepts everything the printer emits and
rejects ill-formed bytes. -/

/-- The opening curly brace character. -/
def lbrace : Char := Char.ofNat 0x7b

/-- The closing curly brace character. -/
def rbrace : Char := Char.ofNat 0x7d

mutual

/-- Whether a value is JSON-representable: built from `None`, booleans,
integers, strings, lists and string-keyed dictionaries.  Byte strings are
rejected by the JSON encoder, and tuples do not round-trip (JSON would
render them as arrays), so neither is JSON-representable. -/
def jsonOk : PyValue → Bool
  | .none => true
  | .bool _ => true
  | .int _ => true
  | .str _ => true
  | .bytes _ => false
  | .tuple _ => false
  | .list es => jsonOkSeq es
  | .dict kvs => jsonOkEntries kvs

/-- All elements of a sequence are JSON-representable. -/
def jsonOkSeq : List PyValue → Bool
  | [] => true
  | v :: vs => jsonOk v && jsonOkSeq vs

/-- All values of a dictionary are JSON-representable. -/
def jsonOkEntries : List (String × PyValue) → Bool
  | [] => true
  | (_, v) :: kvs => jsonOk v && jsonOkEntries kvs

end

/-- Escape one character for a JSON string literal: quotation mark and
backslash take a backslash escape, everything else is literal. -/
def jsonEscapeChar (c : Char) : List Char :=
  if c = '"' ∨ c = '\\' then ['\\', c] else [c]

/-- Escape the body of a JSON string literal. -/
def jsonEscapeBody : List Char → List Char
  | [] => []
  | c :: cs => jsonEscapeChar c ++ jsonEscapeBody cs

/-- A JSON string literal: quotation marks around the escaped body. -/
def jsonStringLit (s : String) : List Char :=
  '"' :: (jsonEscapeBody s.toList ++ ['"'])

/-- The decimal digits of a natural number, least significant first, with
explicit fuel (`fuel ≥ n` suffices). -/
def natDigitsRev : Nat → Nat → List Nat
  | 0, _ => []
  | fuel + 1, n => if n = 0 then [] else n % 10 :: natDigitsRev fuel (n / 10)

/-- The decimal digit characters of a natural number, most significant
first. -/
def natChars (n : Nat) : List Char :=
  if n = 0 then ['0']
  else (natDigitsRev n n).reverse.map (fun d => Char.ofNat (48 + d))

/-- The decimal character rendering of an integer. -/
def intChars (n : Int) : List Char :=
  if n < 0 then '-' :: natChars n.natAbs else natChars n.natAbs

mutual

/-- The canonical size of a value, used as parser fuel accounting. -/
def jsonSize : PyValue → Nat
  | .list es => 1 + jsonSizeSeq es
  | .dict kvs => 1 + jsonSizeEntries kvs
  | _ => 1

/-- Size of a sequence of values. -/
def jsonSizeSeq : List PyValue → Nat
  | [] => 0
  | v :: vs => 1 + jsonSize v + jsonSizeSeq vs

/-- Size of a dictionary's entries. -/
def jsonSizeEntries : List (String × PyValue) → Nat
  | [] => 0
  | (_, v) :: kvs => 1 + jsonSize v + jsonSizeEntries kvs

end

mutual

/-- Render a JSON-representable value as canonical JSON text (the
non-representable `bytes` and `tuple` shapes are mapped to `null`; the
encoder rejects them before rendering). -/
def jsonDump : PyValue → List Char
  | .none => ['n', 'u', 'l', 'l']
  | .bool false => ['f', 'a', 'l', 's', 'e']
  | .bool true => ['t', 'r', 'u', 'e']
  | .int n => intChars n
  | .str s => jsonStringLit s
  | .bytes _ => ['n', 'u', 'l', 'l']
  | .tuple _ => ['n', 'u', 'l', 'l']
  | .list [] => ['[', ']']
  | .list (v :: vs) => '[' :: (jsonDump v ++ jsonDumpSeq vs) ++ [']']
  | .dict [] => [lbrace, rbrace]
  | .dict ((k, v) :: kvs) =>
      lbrace :: (jsonStringLit k ++ ':' :: jsonDump v ++ jsonDumpEntries kvs)
        ++ [rbrace]

/-- Render the remaining elements of a JSON array, each preceded by a
comma. -/
def jsonDumpSeq : List PyValue → List Char
  | [] => []
  | v :: vs => ',' :: jsonDump v ++ jsonDumpSeq vs

/-- Render the remaining entries of a JSON object, each preceded by a
comma. -/
def jsonDumpEntries : List (String × PyValue) → List Char
  | [] => []
  | (k, v) :: kvs =>
      ',' :: (jsonStringLit k ++ ':' :: jsonDump v ++ jsonDumpEntries kvs)

end

/-- Whether a character is a decimal digit. -/
def isDigitChar (c : Char) : Bool :=
  decide (48 ≤ c.toNat) && decide (c.toNat ≤ 57)

/-- Consume an expected literal character sequence from the input. -/
def dropLit : List Char → List Char → Option (List Char)
  | [], cs => some cs
  | l :: ls, c :: cs => if c = l then dropLit ls cs else Option.none
  | _ :: _, [] => Option.none

/-- Parse a run of decimal digits into a natural number, returning the
remaining input; fails when no digit is present. -/
def parseNat (cs : List Char) : Option (Nat × List Char) :=
  if (cs.takeWhile isDigitChar).isEmpty then Option.none
  else some ((cs.takeWhile isDigitChar).foldl (fun a c => a * 10 + (c.toNat - 48)) 0,
    cs.dropWhile isDigitChar)

/-- Parse an optionally negated run of decimal digits as an integer. -/
def parseInt : List Char → Option (Int × List Char)
  | [] => Option.none
  | c :: cs =>
    if c = '-' then (parseNat cs).map (fun p => (-(p.1 : Int), p.2))
    else (parseNat (c :: cs)).map (fun p => ((p.1 : Int), p.2))

/-- Parse the body of a JSON string literal up to its closing quotation
mark, undoing the escapes the printer emits.  The boolean records whether
the previous character was an unconsumed escaping backslash. -/
def parseStrBody : Bool → List Char → Option (List Char × List Char)
  | _, [] => Option.none
  | true, c :: cs =>
    if c = '"' ∨ c = '\\' then
      (parseStrBody false cs).map (fun p => (c :: p.1, p.2))
    else Option.none
  | false, c :: cs =>
    if c = '"' then some ([], cs)
    else if c = '\\' then parseStrBody true cs
    else (parseStrBody false cs).map (fun p => (c :: p.1, p.2))

mutual

/-- Parse one canonical JSON value from the front of the input. -/
def jsonParseVal : Nat → List Char → Option (PyValue × List Char)
  | 0, _ => Option.none
  | _ + 1, [] => Option.none
  | fuel + 1, c :: cs1 =>
    if c = 'n' then (dropLit ['u', 'l', 'l'] cs1).map (fun r => (.none, r))
    else if c = 't' then (dropLit ['r', 'u', 'e'] cs1).map (fun r => (.bool true, r))
    else if c = 'f' then
      (dropLit ['a', 'l', 's', 'e'] cs1).map (fun r => (.bool false, r))
    else if c = '"' then
      (parseStrBody false cs1).map (fun p => (.str (String.mk p.1), p.2))
    else if c = '[' then
      match cs1 with
      | [] => Option.none
      | c1 :: cs2 =>
        if c1 = ']' then some (.list [], cs2)
        else (jsonParseItems fuel (c1 :: cs2)).map (fun p => (.list p.1, p.2))
    else if c = lbrace then
      match cs1 with
      | [] => Option.none
      | c1 :: cs2 =>
        if c1 = rbrace then some (.dict [], cs2)
        else (jsonParseEntries fuel (c1 :: cs2)).map (fun p => (.dict p.1, p.2))
    else if c = '-' ∨ isDigitChar c then
      (parseInt (c :: cs1)).map (fun p => (.int p.1, p.2))
    else Option.none

/-- Parse the elements of a nonempty JSON array after its opening
bracket, through the closing bracket. -/
def jsonParseItems : Nat → List Char → Option (List PyValue × List Char)
  | 0, _ => Option.none
  | fuel + 1, cs =>
    match jsonParseVal fuel cs with
    | Option.none => Option.none
    | some (v, rest) =>
      match rest with
      | [] => Option.none
      | r :: rest1 =>
        if r = ',' then (jsonParseItems fuel rest1).map (fun p => (v :: p.1, p.2))
        else if r = ']' then some ([v], rest1)
        else Option.none

/-- Parse the entries of a nonempty JSON object after its opening brace,
through the closing brace. -/
def jsonParseEntries : Nat → List Char → Option (List (String × PyValue) × List Char)
  | 0, _ => Option.none
  | fuel + 1, cs =>
    match cs with
    | [] => Option.none
    | c :: cs1 =>
      if c = '"' then
        match parseStrBody false cs1 with
        | Option.none => Option.none
        | some (kcs, rest1) =>
          match rest1 with
          | [] => Option.none
          | r1 :: cs2 =>
            if r1 = ':' then
              match jsonParseVal fuel cs2 with
              | Option.none => Option.none
              | some (v, rest2) =>
                match rest2 with
                | [] => Option.none
                | r2 :: cs3 =>
                  if r2 = ',' then
                    (jsonParseEntries fuel cs3).map
                      (fun p => ((String.mk kcs, v) :: p.1, p.2))
                  else if r2 = rbrace then some ([(String.mk kcs, v)], cs3)
                  else Option.none
            else Option.none
      else Option.none

end

/-- Modelled from the spec (§4.3, structured-text kind): encode any
JSON-representable value as the UTF-8 bytes of its canonical JSON text;
any other value is rejected with a type error (Python's `json.dumps`
raises `TypeError`). -/
def jsonSerialize (v : PyValue) : Except CacheError (List Nat) :=
  if jsonOk v then .ok (utf8EncodeChars (jsonDump v))
  else .error (.typeError "value is not JSON-serializable")

/-- Modelled from the spec (§4.3, structured-text kind): decode bytes as
UTF-8 JSON text; undecodable bytes fail with a serialization-style
error. -/
def jsonDeserialize (bs : List Nat) : Except CacheError PyValue :=
  match utf8DecodeChars bs.length bs with
  | Option.none => .error (.serializationError "stored bytes are not valid UTF-8")
  | some cs =>
    match jsonParseVal cs.length cs with
    | some (v, []) => .ok v
    | some (_, _ :: _) => .error (.serializationError "trailing data after JSON text")
    | Option.none => .error (.serializationError "stored bytes are not valid JSON")

/-! ### JSON round-trip support lemmas -/

/-- The input after the parse position does not begin with a digit (so a
digit run ending at the position is maximal). -/
def headNotDigit : List Char → Prop
  | [] => True
  | c :: _ => isDigitChar c = false

/-- Rebuilding a string from its character list is the identity. -/
theorem string_mk_toList (s : String) : String.mk s.toList = s := rfl

/-- Consuming a literal from itself plus a remainder yields the
remainder. -/
theorem dropLit_self : ∀ (lit rest : List Char),
    dropLit lit (lit ++ rest) = some rest := by
  intro lit
  induction lit with
  | nil => intro rest; rfl
  | cons l ls ih =>
    intro rest
    rw [List.cons_append, dropLit, if_pos rfl]
    exact ih rest

/-- `takeWhile`/`dropWhile` split an append exactly at the boundary when
the predicate holds throughout the left part and fails at the head of the
right part. -/
theorem takeWhile_dropWhile_append (p : Char → Bool) :
    ∀ (l r : List Char), (∀ c ∈ l, p c = true) →
      (∀ c cs, r = c :: cs → p c = false) →
      (l ++ r).takeWhile p = l ∧ (l ++ r).dropWhile p = r := by
  intro l
  induction l with
  | nil =>
    intro r _ hr
    cases r with
    | nil => exact ⟨rfl, rfl⟩
    | cons c cs =>
      simp only [List.nil_append, List.takeWhile_cons, List.dropWhile_cons,
        hr c cs rfl]
      exact ⟨rfl, rfl⟩
  | cons a l ih =>
    intro r hl hr
    have ha : p a = true := hl a (List.mem_cons_self a l)
    have hrec := ih r (fun c hc => hl c (List.mem_cons_of_mem a hc)) hr
    simp only [List.cons_append, List.takeWhile_cons, List.dropWhile_cons, ha,
      if_true]
    exact ⟨by rw [hrec.1], by rw [hrec.2]⟩

/-- With sufficient fuel, the fuel-based digit function agrees with
`Nat.digits`. -/
theorem natDigitsRev_eq_digits :
    ∀ (fuel n : Nat), n ≤ fuel → natDigitsRev fuel n = Nat.digits 10 n := by
  intro fuel
  induction fuel with
  | zero =>
    intro n hn
    interval_cases n
    simp [natDigitsRev]
  | succ f ih =>
    intro n hn
    rw [natDigitsRev]
    by_cases h0 : n = 0
    · rw [if_pos h0, h0, Nat.digits_zero]
    · rw [if_neg h0, ih (n / 10) (by omega)]
      conv_rhs => rw [Nat.digits_def' (by norm_num : (1 : Nat) < 10)
        (Nat.pos_of_ne_zero h0)]

/-- Every character of a decimal rendering is a digit. -/
theorem natChars_digits (n : Nat) : ∀ c ∈ natChars n, isDigitChar c = true := by
  intro c hc
  rw [natChars] at hc
  by_cases h0 : n = 0
  · rw [if_pos h0] at hc
    simp only [List.mem_singleton] at hc
    subst hc
    decide
  · rw [if_neg h0, natDigitsRev_eq_digits n n le_rfl] at hc
    simp only [List.mem_map, List.mem_reverse] at hc
    obtain ⟨d, hd, rfl⟩ := hc
    have hlt : d < 10 := Nat.digits_lt_base (by norm_num) hd
    have hv : (48 + d).isValidChar := Or.inl (by omega)
    simp only [isDigitChar, char_toNat_ofNat _ hv, Bool.and_eq_true,
      decide_eq_true_eq]
    omega

/-- A decimal rendering is never empty. -/
theorem natChars_ne_nil (n : Nat) : natChars n ≠ [] := by
  rw [natChars]
  by_cases h0 : n = 0
  · rw [if_pos h0]; simp
  · rw [if_neg h0, natDigitsRev_eq_digits n n le_rfl]
    simp only [ne_eq, List.map_eq_nil_iff, List.reverse_eq_nil_iff]
    exact Nat.digits_ne_nil_iff_ne_zero.mpr h0

/-- Folding the digit characters of a reversed digit list accumulates the
positional value of the digits. -/
theorem foldl_digitChars :
    ∀ (ds : List Nat), (∀ d ∈ ds, d < 10) → ∀ (acc : Nat),
      ((ds.reverse.map (fun d => Char.ofNat (48 + d))).foldl
        (fun a c => a * 10 + (c.toNat - 48)) acc) =
      acc * 10 ^ ds.length + Nat.ofDigits 10 ds := by
  intro ds
  induction ds with
  | nil => intro _ acc; simp [Nat.ofDigits]
  | cons d ds ih =>
    intro hlt acc
    have hd : d < 10 := hlt d (List.mem_cons_self d ds)
    have hv : (48 + d).isValidChar := Or.inl (by omega)
    rw [List.reverse_cons, List.map_append, List.foldl_append,
      ih (fun e he => hlt e (List.mem_cons_of_mem d he)) acc]
    simp only [List.map_cons, List.map_nil, List.foldl_cons, List.foldl_nil,
      char_toNat_ofNat _ hv, Nat.ofDigits_cons, List.length_cons]
    have : 48 + d - 48 = d := by omega
    rw [this, pow_succ]
    ring

/-- Parsing the decimal rendering of a natural number consumes exactly the
rendering and returns the number, for any non-digit continuation. -/
theorem parseNat_natChars (n : Nat) (rest : List Char)
    (hrest : headNotDigit rest) :
    parseNat (natChars n ++ rest) = some (n, rest) := by
  have hr : ∀ c cs, rest = c :: cs → isDigitChar c = false := by
    intro c cs hcs
    rw [hcs] at hrest
    exact hrest
  have hsplit := takeWhile_dropWhile_append isDigitChar (natChars n) rest
    (natChars_digits n) hr
  rw [parseNat, hsplit.1, hsplit.2, if_neg (by simpa using natChars_ne_nil n)]
  congr 1
  rw [Prod.mk.injEq]
  refine ⟨?_, rfl⟩
  rw [natChars]
  by_cases h0 : n = 0
  · rw [if_pos h0, h0]
    rfl
  · rw [if_neg h0, natDigitsRev_eq_digits n n le_rfl]
    have h10 : ∀ d ∈ Nat.digits 10 n, d < 10 :=
      fun d hd => Nat.digits_lt_base (by norm_num) hd
    rw [foldl_digitChars (Nat.digits 10 n) h10 0]
    simp [Nat.ofDigits_digits]

/-- Parsing the decimal rendering of an integer consumes exactly the
rendering and returns the integer, for any non-digit continuation. -/
theorem parseInt_intChars (n : Int) (rest : List Char)
    (hrest : headNotDigit rest) :
    parseInt (intChars n ++ rest) = some (n, rest) := by
  rw [intChars]
  by_cases hneg : n < 0
  · rw [if_pos hneg, List.cons_append, parseInt, if_pos rfl,
      parseNat_natChars n.natAbs rest hrest]
    simp only [Option.map_some']
    congr 2
    omega
  · rw [if_neg hneg]
    rcases hcons : natChars n.natAbs with _ | ⟨c, cs⟩
    · exact absurd hcons (natChars_ne_nil n.natAbs)
    · have hdig : isDigitChar c = true := by
        apply natChars_digits n.natAbs
        rw [hcons]
        exact List.mem_cons_self c cs
      have hcne : ¬ c = '-' := by
        intro hc
        rw [hc] at hdig
        simp [isDigitChar] at hdig
      rw [List.cons_append, parseInt, if_neg hcne]
      have hback : c :: (cs ++ rest) = natChars n.natAbs ++ rest := by
        rw [hcons, List.cons_append]
      rw [hback, parseNat_natChars n.natAbs rest hrest]
      simp only [Option.map_some']
      congr 2
      omega

/-- Parsing an escaped string body, terminated by the closing quotation
mark, recovers the original characters. -/
theorem parseStrBody_escape :
    ∀ (s rest : List Char),
      parseStrBody false (jsonEscapeBody s ++ ('"' :: rest)) = some (s, rest) := by
  intro s
  induction s with
  | nil =>
    intro rest
    rw [jsonEscapeBody, List.nil_append, parseStrBody, if_pos rfl]
  | cons c cs ih =>
    intro rest
    rw [jsonEscapeBody, jsonEscapeChar]
    by_cases hc : c = '"' ∨ c = '\\'
    · rw [if_pos hc]
      simp only [List.cons_append, List.append_assoc, List.nil_append]
      rw [parseStrBody, if_neg (by decide), if_pos rfl, parseStrBody,
        if_pos hc, ih rest]
      rfl
    · rw [if_neg hc]
      push_neg at hc
      simp only [List.cons_append, List.nil_append]
      rw [parseStrBody, if_neg hc.1, if_neg hc.2, ih rest]
      rfl

/-- The decimal rendering of an integer begins with a minus sign or a
digit. -/
theorem intChars_head (n : Int) :
    ∃ c cs, intChars n = c :: cs ∧ (c = '-' ∨ isDigitChar c = true) := by
  by_cases hneg : n < 0
  · exact ⟨'-', natChars n.natAbs, by rw [intChars, if_pos hneg], Or.inl rfl⟩
  · rcases hcons : natChars n.natAbs with _ | ⟨c, cs⟩
    · exact absurd hcons (natChars_ne_nil n.natAbs)
    · refine ⟨c, cs, by rw [intChars, if_neg hneg, hcons], Or.inr ?_⟩
      apply natChars_digits n.natAbs
      rw [hcons]
      exact List.mem_cons_self c cs

/-- A character that is a minus sign or digit differs from any character
that is neither. -/
theorem intHead_ne {c : Char} (hclass : c = '-' ∨ isDigitChar c = true)
    (d : Char) (hd1 : ¬ d = '-') (hd2 : isDigitChar d = false) : ¬ c = d := by
  intro he
  subst he
  rcases hclass with h | h
  · exact hd1 h
  · rw [h] at hd2
    exact Bool.noConfusion hd2

/-- The JSON rendering of any value is nonempty and never begins with a
closing bracket. -/
theorem jsonDump_head (v : PyValue) :
    ∃ c cs, jsonDump v = c :: cs ∧ ¬ c = ']' := by
  cases v with
  | none => exact ⟨'n', ['u', 'l', 'l'], rfl, by decide⟩
  | bool b =>
    cases b with
    | true => exact ⟨'t', ['r', 'u', 'e'], rfl, by decide⟩
    | false => exact ⟨'f', ['a', 'l', 's', 'e'], rfl, by decide⟩
  | int n =>
    obtain ⟨c, cs, hcons, hclass⟩ := intChars_head n
    exact ⟨c, cs, hcons, intHead_ne hclass ']' (by decide) (by decide)⟩
  | str s => exact ⟨'"', jsonEscapeBody s.toList ++ ['"'], rfl, by decide⟩
  | bytes bs => exact ⟨'n', ['u', 'l', 'l'], rfl, by decide⟩
  | tuple es => exact ⟨'n', ['u', 'l', 'l'], rfl, by decide⟩
  | list es =>
    cases es with
    | nil => exact ⟨'[', [']'], rfl, by decide⟩
    | cons v vs =>
      exact ⟨'[', (jsonDump v ++ jsonDumpSeq vs) ++ [']'], rfl, by decide⟩
  | dict kvs =>
    cases kvs with
    | nil => exact ⟨lbrace, [rbrace], rfl, by decide⟩
    | cons kv kvs =>
      exact ⟨lbrace, (jsonStringLit kv.1 ++ ':' :: jsonDump kv.2 ++
        jsonDumpEntries kvs) ++ [rbrace], rfl, by decide⟩

/-- The canonical size of every value is positive. -/
theorem jsonSize_pos (v : PyValue) : 1 ≤ jsonSize v := by
  cases v <;> simp [jsonSize]

/-- One-step unfolding of the value parser on a nonempty input. -/
theorem jsonParseVal_cons (f : Nat) (c : Char) (cs : List Char) :
    jsonParseVal (f + 1) (c :: cs) =
      (if c = 'n' then (dropLit ['u', 'l', 'l'] cs).map (fun r => (PyValue.none, r))
      else if c = 't' then
        (dropLit ['r', 'u', 'e'] cs).map (fun r => (PyValue.bool true, r))
      else if c = 'f' then
        (dropLit ['a', 'l', 's', 'e'] cs).map (fun r => (PyValue.bool false, r))
      else if c = '"' then
        (parseStrBody false cs).map (fun p => (PyValue.str (String.mk p.1), p.2))
      else if c = '[' then
        match cs with
        | [] => Option.none
        | c1 :: cs2 =>
          if c1 = ']' then some (PyValue.list [], cs2)
          else (jsonParseItems f (c1 :: cs2)).map (fun p => (PyValue.list p.1, p.2))
      else if c = lbrace then
        match cs with
        | [] => Option.none
        | c1 :: cs2 =>
          if c1 = rbrace then some (PyValue.dict [], cs2)
          else (jsonParseEntries f (c1 :: cs2)).map (fun p => (PyValue.dict p.1, p.2))
      else if c = '-' ∨ isDigitChar c then
        (parseInt (c :: cs)).map (fun p => (PyValue.int p.1, p.2))
      else Option.none) := rfl

/-- The JSON printer–parser round trip, mutually over values, array
elements and object entries, by induction on parser fuel. -/
theorem jsonParse_jsonDump :
    ∀ fuel : Nat,
      (∀ (v : PyValue) (rest : List Char), jsonOk v = true →
        jsonSize v ≤ fuel → headNotDigit rest →
        jsonParseVal fuel (jsonDump v ++ rest) = some (v, rest)) ∧
      (∀ (v : PyValue) (vs : List PyValue) (rest : List Char),
        jsonOk v = true → jsonOkSeq vs = true →
        jsonSizeSeq (v :: vs) ≤ fuel → headNotDigit rest →
        jsonParseItems fuel (jsonDump v ++ (jsonDumpSeq vs ++ (']' :: rest))) =
          some (v :: vs, rest)) ∧
      (∀ (k : String) (v : PyValue) (kvs : List (String × PyValue))
          (rest : List Char),
        jsonOk v = true → jsonOkEntries kvs = true →
        jsonSizeEntries ((k, v) :: kvs) ≤ fuel → headNotDigit rest →
        jsonParseEntries fuel
          (jsonStringLit k ++
            (':' :: (jsonDump v ++ (jsonDumpEntries kvs ++ (rbrace :: rest))))) =
          some ((k, v) :: kvs, rest)) := by
  intro fuel
  induction fuel with
  | zero =>
    refine ⟨fun v rest _ hsz _ => ?_, fun v vs rest _ _ hsz _ => ?_,
      fun k v kvs rest _ _ hsz _ => ?_⟩
    · have := jsonSize_pos v
      omega
    · rw [jsonSizeSeq] at hsz
      omega
    · rw [jsonSizeEntries] at hsz
      omega
  | succ f ih =>
    obtain ⟨ihV, ihI, ihE⟩ := ih
    refine ⟨?_, ?_, ?_⟩
    · -- value parsing
      intro v rest hok hsz hrest
      cases v with
      | none => rfl
      | bool b => cases b <;> rfl
      | int n =>
        obtain ⟨c, cs, hcons, hclass⟩ := intChars_head n
        have hd : jsonDump (.int n) = intChars n := rfl
        rw [hd, hcons, List.cons_append, jsonParseVal_cons,
          if_neg (intHead_ne hclass 'n' (by decide) (by decide)),
          if_neg (intHead_ne hclass 't' (by decide) (by decide)),
          if_neg (intHead_ne hclass 'f' (by decide) (by decide)),
          if_neg (intHead_ne hclass '"' (by decide) (by decide)),
          if_neg (intHead_ne hclass '[' (by decide) (by decide)),
          if_neg (intHead_ne hclass lbrace (by decide) (by decide)),
          if_pos hclass]
        have hback : c :: (cs ++ rest) = intChars n ++ rest := by
          rw [hcons]
          rfl
        rw [hback, parseInt_intChars n rest hrest]
        rfl
      | str s =>
        have hd : jsonDump (.str s) ++ rest =
            '"' :: (jsonEscapeBody s.toList ++ ('"' :: rest)) := by
          simp [jsonDump, jsonStringLit]
        rw [hd, jsonParseVal_cons, if_neg (by decide), if_neg (by decide),
          if_neg (by decide), if_pos rfl, parseStrBody_escape]
        rfl
      | bytes bs => exact absurd hok (by simp [jsonOk])
      | tuple es => exact absurd hok (by simp [jsonOk])
      | list es =>
        cases es with
        | nil => rfl
        | cons w ws =>
          have hok2 : jsonOk w = true ∧ jsonOkSeq ws = true := by
            rw [show jsonOk (.list (w :: ws)) = (jsonOk w && jsonOkSeq ws)
              from rfl, Bool.and_eq_true] at hok
            exact hok
          have hsz2 : jsonSizeSeq (w :: ws) ≤ f := by
            rw [show jsonSize (.list (w :: ws)) = 1 + jsonSizeSeq (w :: ws)
              from rfl] at hsz
            omega
          obtain ⟨c1, cs1, hcons, hne⟩ := jsonDump_head w
          have hd : jsonDump (.list (w :: ws)) ++ rest =
              '[' :: (c1 :: (cs1 ++ (jsonDumpSeq ws ++ (']' :: rest)))) := by
            show ('[' :: (jsonDump w ++ jsonDumpSeq ws) ++ [']']) ++ rest = _
            rw [hcons]
            simp
          rw [hd, jsonParseVal_cons, if_neg (by decide), if_neg (by decide),
            if_neg (by decide), if_neg (by decide), if_pos rfl]
          have hback : c1 :: (cs1 ++ (jsonDumpSeq ws ++ (']' :: rest))) =
              jsonDump w ++ (jsonDumpSeq ws ++ (']' :: rest)) := by
            rw [hcons]
            rfl
          show (if c1 = ']' then
              some (PyValue.list [], cs1 ++ (jsonDumpSeq ws ++ (']' :: rest)))
            else (jsonParseItems f
              (c1 :: (cs1 ++ (jsonDumpSeq ws ++ (']' :: rest))))).map
                (fun p => (PyValue.list p.1, p.2))) =
            some (PyValue.list (w :: ws), rest)
          rw [if_neg hne, hback,
            ihI w ws rest hok2.1 hok2.2 hsz2 hrest]
          rfl
      | dict kvs =>
        cases kvs with
        | nil => rfl
        | cons kv kvs2 =>
          obtain ⟨k, w⟩ := kv
          have hok2 : jsonOk w = true ∧ jsonOkEntries kvs2 = true := by
            rw [show jsonOk (.dict ((k, w) :: kvs2)) =
              (jsonOk w && jsonOkEntries kvs2) from rfl, Bool.and_eq_true] at hok
            exact hok
          have hsz2 : jsonSizeEntries ((k, w) :: kvs2) ≤ f := by
            rw [show jsonSize (.dict ((k, w) :: kvs2)) =
              1 + jsonSizeEntries ((k, w) :: kvs2) from rfl] at hsz
            omega
          have hd : jsonDump (.dict ((k, w) :: kvs2)) ++ rest =
              lbrace :: ('"' ::
                (jsonEscapeBody k.toList ++ ('"' ::
                  (':' :: (jsonDump w ++
                    (jsonDumpEntries kvs2 ++ (rbrace :: rest))))))) := by
            show (lbrace :: (jsonStringLit k ++ ':' :: jsonDump w ++
              jsonDumpEntries kvs2) ++ [rbrace]) ++ rest = _
            rw [jsonStringLit]
            simp
          rw [hd, jsonParseVal_cons, if_neg (by decide), if_neg (by decide),
            if_neg (by decide), if_neg (by decide), if_neg (by decide),
            if_pos rfl]
          show (jsonParseEntries f ('"' :: (jsonEscapeBody k.toList ++
            ('"' :: (':' :: (jsonDump w ++ (jsonDumpEntries kvs2 ++
              (rbrace :: rest)))))))).map
              (fun p => (PyValue.dict p.1, p.2)) =
            some (PyValue.dict ((k, w) :: kvs2), rest)
          have := ihE k w kvs2 rest hok2.1 hok2.2 hsz2 hrest
          rw [jsonStringLit] at this
          rw [show ('"' :: (jsonEscapeBody k.toList ++ ('"' ::
            (':' :: (jsonDump w ++ (jsonDumpEntries kvs2 ++
              (rbrace :: rest))))))) =
            ('"' :: (jsonEscapeBody k.toList ++ ['"'])) ++
              (':' :: (jsonDump w ++ (jsonDumpEntries kvs2 ++
                (rbrace :: rest)))) from by simp, this]
          rfl
    · -- array elements
      intro v vs rest hokv hokvs hsz hrest
      have hszv : jsonSize v ≤ f := by
        rw [jsonSizeSeq] at hsz
        omega
      cases vs with
      | nil =>
        have hnd : headNotDigit (']' :: rest) := by
          show isDigitChar ']' = false
          decide
        have hv := ihV v (']' :: rest) hokv hszv hnd
        rw [jsonParseItems]
        rw [show jsonDump v ++ (jsonDumpSeq [] ++ (']' :: rest)) =
          jsonDump v ++ (']' :: rest) from by simp [jsonDumpSeq], hv]
        rfl
      | cons w ws =>
        have hok2 : jsonOk w = true ∧ jsonOkSeq ws = true := by
          rw [jsonOkSeq, Bool.and_eq_true] at hokvs
          exact hokvs
        have hsz2 : jsonSizeSeq (w :: ws) ≤ f := by
          rw [jsonSizeSeq] at hsz
          omega
        have hnd : headNotDigit (',' :: (jsonDump w ++
            (jsonDumpSeq ws ++ (']' :: rest)))) := by
          show isDigitChar ',' = false
          decide
        have hv := ihV v _ hokv hszv hnd
        rw [jsonParseItems]
        rw [show jsonDump v ++ (jsonDumpSeq (w :: ws) ++ (']' :: rest)) =
          jsonDump v ++ (',' :: (jsonDump w ++ (jsonDumpSeq ws ++
            (']' :: rest)))) from by rw [jsonDumpSeq]; simp, hv]
        show (jsonParseItems f (jsonDump w ++ (jsonDumpSeq ws ++
          (']' :: rest)))).map (fun p => (v :: p.1, p.2)) =
          some (v :: w :: ws, rest)
        rw [ihI w ws rest hok2.1 hok2.2 hsz2 hrest]
        rfl
    · -- object entries
      intro k v kvs rest hokv hokkvs hsz hrest
      have hszv : jsonSize v ≤ f := by
        rw [jsonSizeEntries] at hsz
        omega
      rw [jsonStringLit, List.cons_append, jsonParseEntries, if_pos rfl]
      rw [show (jsonEscapeBody k.toList ++ ['"']) ++
        (':' :: (jsonDump v ++ (jsonDumpEntries kvs ++ (rbrace :: rest)))) =
        jsonEscapeBody k.toList ++ ('"' ::
          (':' :: (jsonDump v ++ (jsonDumpEntries kvs ++ (rbrace :: rest)))))
        from by simp, parseStrBody_escape]
      cases kvs with
      | nil =>
        have hnd : headNotDigit (rbrace :: rest) := by
          show isDigitChar rbrace = false
          decide
        have hv := ihV v (rbrace :: rest) hokv hszv hnd
        rw [show jsonDump v ++ (jsonDumpEntries [] ++ (rbrace :: rest)) =
          jsonDump v ++ (rbrace :: rest) from by simp [jsonDumpEntries]]
        simp only [hv]
        rfl
      | cons kv2 kvs2 =>
        obtain ⟨k2, w2⟩ := kv2
        have hok2 : jsonOk w2 = true ∧ jsonOkEntries kvs2 = true := by
          rw [jsonOkEntries, Bool.and_eq_true] at hokkvs
          exact hokkvs
        have hsz2 : jsonSizeEntries ((k2, w2) :: kvs2) ≤ f := by
          rw [jsonSizeEntries] at hsz
          omega
        have hnd : headNotDigit (',' :: (jsonStringLit k2 ++
            (':' :: (jsonDump w2 ++ (jsonDumpEntries kvs2 ++
              (rbrace :: rest)))))) := by
          show isDigitChar ',' = false
          decide
        have hv := ihV v _ hokv hszv hnd
        rw [show jsonDump v ++ (jsonDumpEntries ((k2, w2) :: kvs2) ++
          (rbrace :: rest)) = jsonDump v ++ (',' :: (jsonStringLit k2 ++
            (':' :: (jsonDump w2 ++ (jsonDumpEntries kvs2 ++
              (rbrace :: rest)))))) from by rw [jsonDumpEntries]; simp]
        simp only [hv]
        show (jsonParseEntries f (jsonStringLit k2 ++
          (':' :: (jsonDump w2 ++ (jsonDumpEntries kvs2 ++
            (rbrace :: rest)))))).map
            (fun p => ((String.mk k.toList, v) :: p.1, p.2)) =
          some ((k, v) :: (k2, w2) :: kvs2, rest)
        rw [ihE k2 w2 kvs2 rest hok2.1 hok2.2 hsz2 hrest]
        rfl

mutual

/-- The canonical size of a value is bounded by the length of its JSON
rendering. -/
theorem jsonSize_le_dump (v : PyValue) : jsonSize v ≤ (jsonDump v).length := by
  cases v with
  | none => decide
  | bool b => cases b <;> decide
  | int n =>
    have h := natChars_ne_nil n.natAbs
    rw [show jsonSize (.int n) = 1 from rfl, show jsonDump (.int n) = intChars n
      from rfl, intChars]
    by_cases hneg : n < 0
    · rw [if_pos hneg]
      simp
    · rw [if_neg hneg]
      rcases hcons : natChars n.natAbs with _ | ⟨c, cs⟩
      · exact absurd hcons h
      · simp
  | str s =>
    rw [show jsonSize (.str s) = 1 from rfl,
      show jsonDump (.str s) = jsonStringLit s from rfl, jsonStringLit]
    simp
  | bytes bs =>
    show (1 : Nat) ≤ 4
    decide
  | tuple es =>
    show (1 : Nat) ≤ 4
    decide
  | list es =>
    cases es with
    | nil => decide
    | cons w ws =>
      have h1 := jsonSize_le_dump w
      have h2 := jsonSizeSeq_le_dumpSeq ws
      rw [show jsonSize (.list (w :: ws)) =
        1 + (1 + jsonSize w + jsonSizeSeq ws) from rfl,
        show jsonDump (.list (w :: ws)) =
          '[' :: ((jsonDump w ++ jsonDumpSeq ws) ++ [']']) from rfl]
      simp only [List.length_cons, List.length_append, List.length_singleton]
      omega
  | dict kvs =>
    cases kvs with
    | nil => decide
    | cons kv kvs2 =>
      have h1 := jsonSize_le_dump kv.2
      have h2 := jsonSizeEntries_le_dumpEntries kvs2
      rw [show jsonSize (.dict (kv :: kvs2)) =
        1 + (1 + jsonSize kv.2 + jsonSizeEntries kvs2) from by
          cases kv
          rfl,
        show jsonDump (.dict (kv :: kvs2)) =
          lbrace :: ((jsonStringLit kv.1 ++ ':' :: jsonDump kv.2 ++
            jsonDumpEntries kvs2) ++ [rbrace]) from by
          cases kv
          rfl]
      simp only [List.length_cons, List.length_append, List.length_singleton]
      omega

/-- Sequence sizes are bounded by rendering lengths. -/
theorem jsonSizeSeq_le_dumpSeq (vs : List PyValue) :
    jsonSizeSeq vs ≤ (jsonDumpSeq vs).length := by
  cases vs with
  | nil => decide
  | cons w ws =>
    have h1 := jsonSize_le_dump w
    have h2 := jsonSizeSeq_le_dumpSeq ws
    rw [jsonSizeSeq, show jsonDumpSeq (w :: ws) =
      ',' :: (jsonDump w ++ jsonDumpSeq ws) from rfl]
    simp only [List.length_cons, List.length_append]
    omega

/-- Entry-list sizes are bounded by rendering lengths. -/
theorem jsonSizeEntries_le_dumpEntries (kvs : List (String × PyValue)) :
    jsonSizeEntries kvs ≤ (jsonDumpEntries kvs).length := by
  cases kvs with
  | nil => decide
  | cons kv kvs2 =>
    have h1 := jsonSize_le_dump kv.2
    have h2 := jsonSizeEntries_le_dumpEntries kvs2
    rw [show jsonSizeEntries (kv :: kvs2) =
      1 + jsonSize kv.2 + jsonSizeEntries kvs2 from by
        cases kv
        rfl,
      show jsonDumpEntries (kv :: kvs2) =
        ',' :: (jsonStringLit kv.1 ++ ':' :: jsonDump kv.2 ++
          jsonDumpEntries kvs2) from by
        cases kv
        rfl]
    simp only [List.length_cons, List.length_append]
    omega

end

/-- The structured-text serializer round trip: every JSON-representable
value decodes from its own encoding. -/
theorem jsonSerialize_roundTrip (v : PyValue) (h : jsonOk v = true) :
    jsonSerialize v = .ok (utf8EncodeChars (jsonDump v)) ∧
    jsonDeserialize (utf8EncodeChars (jsonDump v)) = .ok v := by
  refine ⟨by rw [jsonSerialize, if_pos h], ?_⟩
  rw [jsonDeserialize,
    utf8DecodeChars_encodeChars (jsonDump v) _ (length_le_utf8EncodeChars _)]
  have hfuel : jsonSize v ≤ (jsonDump v).length := jsonSize_le_dump v
  have hparse := (jsonParse_jsonDump (jsonDump v).length).1 v [] h hfuel trivial
  rw [List.append_nil] at hparse
  simp only [hparse]

/-! ## Generic-binary (pickle) serializer

The generic-binary serializer renders any value — including byte strings
and tuples, which JSON cannot represent — as a self-delimiting
tag-length-value byte format, and decodes by parsing it back.  The format
is private to the serializer; the spec's contract is only that decoding
reproduces an equal value. -/

/-- Encode a natural number as base-128 digits, least significant first,
each non-final digit marked with a high continuation bit (fuel-bounded;
`fuel > n` suffices). -/
def natEncodeF : Nat → Nat → List Nat
  | 0, _ => []
  | fuel + 1, n =>
    if n < 128 then [n] else (128 + n % 128) :: natEncodeF fuel (n / 128)

/-- Encode a natural number as a self-delimiting byte sequence. -/
def natEncode (n : Nat) : List Nat :=
  natEncodeF (n + 1) n

/-- Decode a self-delimiting natural number from the front of a byte
string. -/
def natDecode : List Nat → Option (Nat × List Nat)
  | [] => Option.none
  | b :: bs =>
    if b < 128 then some (b, bs)
    else (natDecode bs).map (fun p => (b - 128 + 128 * p.1, p.2))

/-- Decoding inverts the fuel-bounded varint encoding. -/
theorem natDecode_natEncodeF :
    ∀ (fuel n : Nat) (rest : List Nat), n < fuel →
      natDecode (natEncodeF fuel n ++ rest) = some (n, rest) := by
  intro fuel
  induction fuel with
  | zero => intro n rest hn; omega
  | succ f ih =>
    intro n rest hn
    rw [natEncodeF]
    by_cases hs : n < 128
    · rw [if_pos hs, List.cons_append, natDecode, if_pos hs, List.nil_append]
    · rw [if_neg hs, List.cons_append, natDecode, if_neg (by omega),
        ih (n / 128) rest (by omega)]
      simp only [Option.map_some']
      congr 2
      omega

/-- Decoding inverts the varint encoding, for any continuation. -/
theorem natDecode_natEncode (n : Nat) (rest : List Nat) :
    natDecode (natEncode n ++ rest) = some (n, rest) :=
  natDecode_natEncodeF (n + 1) n rest (by omega)

mutual

/-- The pickle byte encoding of a value: a tag byte followed by the
payload.  Sequences are streamed with a continue/stop marker before each
element, making the format self-delimiting without length prefixes. -/
def pickleEnc : PyValue → List Nat
  | .none => [0]
  | .bool false => [1]
  | .bool true => [2]
  | .int n => 3 :: ((if n < 0 then [1] else [0]) ++ natEncode n.natAbs)
  | .str s => 4 :: (natEncode (utf8Encode s).length ++ utf8Encode s)
  | .bytes bs => 5 :: (natEncode bs.length ++ bs)
  | .list es => 6 :: pickleEncSeq es
  | .tuple es => 7 :: pickleEncSeq es
  | .dict kvs => 8 :: pickleEncEntries kvs

/-- Encode a sequence of values: marker byte `1` before each element,
marker byte `0` at the end. -/
def pickleEncSeq : List PyValue → List Nat
  | [] => [0]
  | v :: vs => 1 :: (pickleEnc v ++ pickleEncSeq vs)

/-- Encode dictionary entries: marker byte `1`, length-prefixed UTF-8
key, value; marker byte `0` at the end. -/
def pickleEncEntries : List (String × PyValue) → List Nat
  | [] => [0]
  | (k, v) :: kvs =>
      1 :: ((natEncode (utf8Encode k).length ++ utf8Encode k) ++
        (pickleEnc v ++ pickleEncEntries kvs))

end

mutual

/-- Parser-fuel accounting for the pickle codec. -/
def pickleSize : PyValue → Nat
  | .list es => 1 + pickleSizeSeq es
  | .tuple es => 1 + pickleSizeSeq es
  | .dict kvs => 1 + pickleSizeEntries kvs
  | _ => 1

/-- Fuel accounting for a sequence of values. -/
def pickleSizeSeq : List PyValue → Nat
  | [] => 0
  | v :: vs => 1 + pickleSize v + pickleSizeSeq vs

/-- Fuel accounting for dictionary entries. -/
def pickleSizeEntries : List (String × PyValue) → Nat
  | [] => 0
  | (_, v) :: kvs => 1 + pickleSize v + pickleSizeEntries kvs

end

mutual

/-- Decode one pickled value from the front of a byte string. -/
def pickleDecVal : Nat → List Nat → Option (PyValue × List Nat)
  | 0, _ => Option.none
  | _ + 1, [] => Option.none
  | fuel + 1, t :: bs =>
    if t = 0 then some (.none, bs)
    else if t = 1 then some (.bool false, bs)
    else if t = 2 then some (.bool true, bs)
    else if t = 3 then
      match bs with
      | [] => Option.none
      | s :: bs1 =>
        (natDecode bs1).map (fun p =>
          (if s = 0 then PyValue.int (p.1 : Int)
           else PyValue.int (-(p.1 : Int)), p.2))
    else if t = 4 then
      match natDecode bs with
      | Option.none => Option.none
      | some (len, bs1) =>
        match utf8Decode (bs1.take len) with
        | Option.none => Option.none
        | some s => some (.str s, bs1.drop len)
    else if t = 5 then
      match natDecode bs with
      | Option.none => Option.none
      | some (len, bs1) => some (.bytes (bs1.take len), bs1.drop len)
    else if t = 6 then
      (pickleDecSeq fuel bs).map (fun p => (PyValue.list p.1, p.2))
    else if t = 7 then
      (pickleDecSeq fuel bs).map (fun p => (PyValue.tuple p.1, p.2))
    else if t = 8 then
      (pickleDecEntries fuel bs).map (fun p => (PyValue.dict p.1, p.2))
    else Option.none

/-- Decode a marker-streamed sequence of pickled values. -/
def pickleDecSeq : Nat → List Nat → Option (List PyValue × List Nat)
  | _, 0 :: bs => some ([], bs)
  | fuel + 1, 1 :: bs =>
    match pickleDecVal fuel bs with
    | Option.none => Option.none
    | some (v, bs1) => (pickleDecSeq fuel bs1).map (fun p => (v :: p.1, p.2))
  | _, _ => Option.none

/-- Decode marker-streamed pickled dictionary entries. -/
def pickleDecEntries : Nat → List Nat → Option (List (String × PyValue) × List Nat)
  | _, 0 :: bs => some ([], bs)
  | fuel + 1, 1 :: bs =>
    match natDecode bs with
    | Option.none => Option.none
    | some (len, bs1) =>
      match utf8Decode (bs1.take len) with
      | Option.none => Option.none
      | some k =>
        match pickleDecVal fuel (bs1.drop len) with
        | Option.none => Option.none
        | some (v, bs2) =>
          (pickleDecEntries fuel bs2).map (fun p => ((k, v) :: p.1, p.2))
  | _, _ => Option.none

end

/-- Modelled from the spec (§4.3, generic-binary kind): encode arbitrary
values, including non-text-safe graphs. -/
def pickleSerialize (v : PyValue) : Except CacheError (List Nat) :=
  .ok (pickleEnc v)

/-- Modelled from the spec (§4.3, generic-binary kind): decode must
reproduce an equal value; undecodable bytes fail with a
serialization-style error. -/
def pickleDeserialize (bs : List Nat) : Except CacheError PyValue :=
  match pickleDecVal bs.length bs with
  | some (v, []) => .ok v
  | some (_, _ :: _) =>
      .error (.serializationError "trailing data after pickled value")
  | Option.none => .error (.serializationError "stored bytes are not a valid pickle")

/-- Every value has positive pickle fuel accounting. -/
theorem pickleSize_pos (v : PyValue) : 1 ≤ pickleSize v := by
  cases v <;> simp [pickleSize]

/-- One-step unfolding of the pickle value decoder on a nonempty input. -/
theorem pickleDecVal_cons (f : Nat) (t : Nat) (bs : List Nat) :
    pickleDecVal (f + 1) (t :: bs) =
      (if t = 0 then some (PyValue.none, bs)
      else if t = 1 then some (PyValue.bool false, bs)
      else if t = 2 then some (PyValue.bool true, bs)
      else if t = 3 then
        match bs with
        | [] => Option.none
        | s :: bs1 =>
          (natDecode bs1).map (fun p =>
            (if s = 0 then PyValue.int (p.1 : Int)
             else PyValue.int (-(p.1 : Int)), p.2))
      else if t = 4 then
        match natDecode bs with
        | Option.none => Option.none
        | some (len, bs1) =>
          match utf8Decode (bs1.take len) with
          | Option.none => Option.none
          | some s => some (PyValue.str s, bs1.drop len)
      else if t = 5 then
        match natDecode bs with
        | Option.none => Option.none
        | some (len, bs1) => some (PyValue.bytes (bs1.take len), bs1.drop len)
      else if t = 6 then
        (pickleDecSeq f bs).map (fun p => (PyValue.list p.1, p.2))
      else if t = 7 then
        (pickleDecSeq f bs).map (fun p => (PyValue.tuple p.1, p.2))
      else if t = 8 then
        (pickleDecEntries f bs).map (fun p => (PyValue.dict p.1, p.2))
      else Option.none) := rfl

/-- The pickle printer–parser round trip, mutually over values, sequence
elements and dictionary entries, by induction on decoder fuel. -/
theorem pickleDec_pickleEnc :
    ∀ fuel : Nat,
      (∀ (v : PyValue) (rest : List Nat), pickleSize v ≤ fuel →
        pickleDecVal fuel (pickleEnc v ++ rest) = some (v, rest)) ∧
      (∀ (vs : List PyValue) (rest : List Nat), pickleSizeSeq vs ≤ fuel →
        pickleDecSeq fuel (pickleEncSeq vs ++ rest) = some (vs, rest)) ∧
      (∀ (kvs : List (String × PyValue)) (rest : List Nat),
        pickleSizeEntries kvs ≤ fuel →
        pickleDecEntries fuel (pickleEncEntries kvs ++ rest) = some (kvs, rest)) := by
  intro fuel
  induction fuel with
  | zero =>
    refine ⟨fun v rest hsz => ?_, fun vs rest hsz => ?_,
      fun kvs rest hsz => ?_⟩
    · have := pickleSize_pos v
      omega
    · cases vs with
      | nil => rfl
      | cons v vs =>
        rw [pickleSizeSeq] at hsz
        omega
    · cases kvs with
      | nil => rfl
      | cons kv kvs =>
        obtain ⟨k, w⟩ := kv
        rw [pickleSizeEntries] at hsz
        omega
  | succ f ih =>
    obtain ⟨ihV, ihS, ihE⟩ := ih
    refine ⟨?_, ?_, ?_⟩
    · -- values
      intro v rest hsz
      cases v with
      | none => rfl
      | bool b => cases b <;> rfl
      | int n =>
        by_cases hneg : n < 0
        · rw [show pickleEnc (.int n) ++ rest =
            3 :: 1 :: (natEncode n.natAbs ++ rest) from by
              rw [show pickleEnc (.int n) =
                3 :: ((if n < 0 then [1] else [0]) ++ natEncode n.natAbs)
                from rfl, if_pos hneg]
              simp]
          show (natDecode (natEncode n.natAbs ++ rest)).map (fun p =>
            (PyValue.int (-(p.1 : Int)), p.2)) = some (.int n, rest)
          rw [natDecode_natEncode]
          simp only [Option.map_some']
          have : -((n.natAbs : Int)) = n := by omega
          rw [this]
        · rw [show pickleEnc (.int n) ++ rest =
            3 :: 0 :: (natEncode n.natAbs ++ rest) from by
              rw [show pickleEnc (.int n) =
                3 :: ((if n < 0 then [1] else [0]) ++ natEncode n.natAbs)
                from rfl, if_neg hneg]
              simp]
          show (natDecode (natEncode n.natAbs ++ rest)).map (fun p =>
            (PyValue.int ((p.1 : Int)), p.2)) = some (.int n, rest)
          rw [natDecode_natEncode]
          simp only [Option.map_some']
          have : ((n.natAbs : Int)) = n := by omega
          rw [this]
      | str s =>
        rw [show pickleEnc (.str s) ++ rest =
          4 :: (natEncode (utf8Encode s).length ++ (utf8Encode s ++ rest))
          from by
            rw [show pickleEnc (.str s) =
              4 :: (natEncode (utf8Encode s).length ++ utf8Encode s) from rfl]
            simp]
        show (match natDecode (natEncode (utf8Encode s).length ++
            (utf8Encode s ++ rest)) with
          | Option.none => Option.none
          | some (len, bs1) =>
            match utf8Decode (bs1.take len) with
            | Option.none => Option.none
            | some t => some (PyValue.str t, bs1.drop len)) =
          some (.str s, rest)
        rw [natDecode_natEncode]
        simp only [List.take_left, List.drop_left, utf8Decode_encode]
      | bytes bs =>
        rw [show pickleEnc (.bytes bs) ++ rest =
          5 :: (natEncode bs.length ++ (bs ++ rest)) from by
            rw [show pickleEnc (.bytes bs) =
              5 :: (natEncode bs.length ++ bs) from rfl]
            simp]
        show (match natDecode (natEncode bs.length ++ (bs ++ rest)) with
          | Option.none => Option.none
          | some (len, bs1) =>
            some (PyValue.bytes (bs1.take len), bs1.drop len)) =
          some (.bytes bs, rest)
        rw [natDecode_natEncode]
        simp only [List.take_left, List.drop_left]
      | list es =>
        have hsz2 : pickleSizeSeq es ≤ f := by
          rw [show pickleSize (.list es) = 1 + pickleSizeSeq es from rfl] at hsz
          omega
        rw [show pickleEnc (.list es) ++ rest =
          6 :: (pickleEncSeq es ++ rest) from rfl]
        show (pickleDecSeq f (pickleEncSeq es ++ rest)).map
          (fun p => (PyValue.list p.1, p.2)) = some (.list es, rest)
        rw [ihS es rest hsz2]
        rfl
      | tuple es =>
        have hsz2 : pickleSizeSeq es ≤ f := by
          rw [show pickleSize (.tuple es) = 1 + pickleSizeSeq es from rfl] at hsz
          omega
        rw [show pickleEnc (.tuple es) ++ rest =
          7 :: (pickleEncSeq es ++ rest) from rfl]
        show (pickleDecSeq f (pickleEncSeq es ++ rest)).map
          (fun p => (PyValue.tuple p.1, p.2)) = some (.tuple es, rest)
        rw [ihS es rest hsz2]
        rfl
      | dict kvs =>
        have hsz2 : pickleSizeEntries kvs ≤ f := by
          rw [show pickleSize (.dict kvs) = 1 + pickleSizeEntries kvs
            from rfl] at hsz
          omega
        rw [show pickleEnc (.dict kvs) ++ rest =
          8 :: (pickleEncEntries kvs ++ rest) from rfl]
        show (pickleDecEntries f (pickleEncEntries kvs ++ rest)).map
          (fun p => (PyValue.dict p.1, p.2)) = some (.dict kvs, rest)
        rw [ihE kvs rest hsz2]
        rfl
    · -- sequence elements
      intro vs rest hsz
      cases vs with
      | nil => rfl
      | cons v vs2 =>
        have hszv : pickleSize v ≤ f := by
          rw [pickleSizeSeq] at hsz
          omega
        have hsz2 : pickleSizeSeq vs2 ≤ f := by
          rw [pickleSizeSeq] at hsz
          omega
        rw [show pickleEncSeq (v :: vs2) ++ rest =
          1 :: (pickleEnc v ++ (pickleEncSeq vs2 ++ rest)) from by
            rw [pickleEncSeq]
            simp]
        show (match pickleDecVal f (pickleEnc v ++ (pickleEncSeq vs2 ++ rest)) with
          | Option.none => Option.none
          | some (w, bs1) =>
            (pickleDecSeq f bs1).map (fun p => (w :: p.1, p.2))) =
          some (v :: vs2, rest)
        rw [ihV v _ hszv]
        show (pickleDecSeq f (pickleEncSeq vs2 ++ rest)).map
          (fun p => (v :: p.1, p.2)) = some (v :: vs2, rest)
        rw [ihS vs2 rest hsz2]
        rfl
    · -- dictionary entries
      intro kvs rest hsz
      cases kvs with
      | nil => rfl
      | cons kv kvs2 =>
        obtain ⟨k, w⟩ := kv
        have hszv : pickleSize w ≤ f := by
          rw [pickleSizeEntries] at hsz
          omega
        have hsz2 : pickleSizeEntries kvs2 ≤ f := by
          rw [pickleSizeEntries] at hsz
          omega
        rw [show pickleEncEntries ((k, w) :: kvs2) ++ rest =
          1 :: (natEncode (utf8Encode k).length ++ (utf8Encode k ++
            (pickleEnc w ++ (pickleEncEntries kvs2 ++ rest)))) from by
            rw [pickleEncEntries]
            simp]
        show (match natDecode (natEncode (utf8Encode k).length ++
            (utf8Encode k ++ (pickleEnc w ++ (pickleEncEntries kvs2 ++ rest)))) with
          | Option.none => Option.none
          | some (len, bs1) =>
            match utf8Decode (bs1.take len) with
            | Option.none => Option.none
            | some key =>
              match pickleDecVal f (bs1.drop len) with
              | Option.none => Option.none
              | some (v, bs2) =>
                (pickleDecEntries f bs2).map (fun p => ((key, v) :: p.1, p.2))) =
          some ((k, w) :: kvs2, rest)
        rw [natDecode_natEncode]
        simp only [List.take_left, List.drop_left, utf8Decode_encode]
        rw [ihV w _ hszv]
        show (pickleDecEntries f (pickleEncEntries kvs2 ++ rest)).map
          (fun p => ((k, w) :: p.1, p.2)) = some ((k, w) :: kvs2, rest)
        rw [ihE kvs2 rest hsz2]
        rfl

mutual

/-- Pickle fuel accounting is bounded by encoding length. -/
theorem pickleSize_le_enc (v : PyValue) :
    pickleSize v ≤ (pickleEnc v).length := by
  cases v with
  | none => decide
  | bool b => cases b <;> decide
  | int n =>
    show (1 : Nat) ≤ (3 :: ((if n < 0 then [1] else [0]) ++
      natEncode n.natAbs)).length
    simp
  | str s =>
    show (1 : Nat) ≤ (4 :: (natEncode (utf8Encode s).length ++
      utf8Encode s)).length
    simp
  | bytes bs =>
    show (1 : Nat) ≤ (5 :: (natEncode bs.length ++ bs)).length
    simp
  | list es =>
    have h := pickleSizeSeq_le_encSeq es
    show 1 + pickleSizeSeq es ≤ (6 :: pickleEncSeq es).length
    simp only [List.length_cons]
    omega
  | tuple es =>
    have h := pickleSizeSeq_le_encSeq es
    show 1 + pickleSizeSeq es ≤ (7 :: pickleEncSeq es).length
    simp only [List.length_cons]
    omega
  | dict kvs =>
    have h := pickleSizeEntries_le_encEntries kvs
    show 1 + pickleSizeEntries kvs ≤ (8 :: pickleEncEntries kvs).length
    simp only [List.length_cons]
    omega

/-- Sequence fuel accounting is bounded by encoding length. -/
theorem pickleSizeSeq_le_encSeq (vs : List PyValue) :
    pickleSizeSeq vs ≤ (pickleEncSeq vs).length := by
  cases vs with
  | nil => decide
  | cons v vs2 =>
    have h1 := pickleSize_le_enc v
    have h2 := pickleSizeSeq_le_encSeq vs2
    rw [pickleSizeSeq, show pickleEncSeq (v :: vs2) =
      1 :: (pickleEnc v ++ pickleEncSeq vs2) from rfl]
    simp only [List.length_cons, List.length_append]
    omega

/-- Entry fuel accounting is bounded by encoding length. -/
theorem pickleSizeEntries_le_encEntries (kvs : List (String × PyValue)) :
    pickleSizeEntries kvs ≤ (pickleEncEntries kvs).length := by
  cases kvs with
  | nil => decide
  | cons kv kvs2 =>
    have h1 := pickleSize_le_enc kv.2
    have h2 := pickleSizeEntries_le_encEntries kvs2
    rw [show pickleSizeEntries (kv :: kvs2) =
      1 + pickleSize kv.2 + pickleSizeEntries kvs2 from by
        cases kv
        rfl,
      show pickleEncEntries (kv :: kvs2) =
        1 :: ((natEncode (utf8Encode kv.1).length ++ utf8Encode kv.1) ++
          (pickleEnc kv.2 ++ pickleEncEntries kvs2)) from by
        cases kv
        rfl]
    simp only [List.length_cons, List.length_append]
    omega

end

/-- The generic-binary serializer round trip: every value decodes from
its own encoding. -/
theorem pickleSerialize_roundTrip (v : PyValue) :
    pickleSerialize v = .ok (pickleEnc v) ∧
    pickleDeserialize (pickleEnc v) = .ok v := by
  refine ⟨rfl, ?_⟩
  rw [pickleDeserialize]
  have hparse := (pickleDec_pickleEnc (pickleEnc v).length).1 v []
    (pickleSize_le_enc v)
  rw [List.append_nil] at hparse
  simp only [hparse]

/-- Modelled from the spec (§4.3, `default_serializer`): the serialization
registry maps each supported kind name to its encoder/decoder pair;
requesting an unknown kind fails (Python raises `ValueError`). -/
def default_serializer (kind : String) :
    Except CacheError ((PyValue → Except CacheError (List Nat)) ×
      (List Nat → Except CacheError PyValue)) :=
  if kind = "json" then .ok (jsonSerialize, jsonDeserialize)
  else if kind = "pickle" then .ok (pickleSerialize, pickleDeserialize)
  else if kind = "str" then .ok (strSerialize, strDeserialize)
  else if kind = "bytes" then .ok (bytesSerialize, bytesDeserialize)
  else .error (.valueError "unsupported serializer")

/-! ## Claim C3 -/

/-- C3: for every supported serializer kind, `decode(encode(v)) == v` for
representative values: for the structured-text (json) kind every
JSON-representable value round-trips to an equal value, for the
generic-binary (pickle) kind arbitrary values round-trip to an equal
value, and for the raw-bytes kind encode and decode are the identity on
byte sequences. -/
theorem claim_C3_serializer_roundtrips :
    (∀ v : PyValue, jsonOk v = true →
      ∃ bs, jsonSerialize v = .ok bs ∧ jsonDeserialize bs = .ok v) ∧
    (∀ v : PyValue,
      ∃ bs, pickleSerialize v = .ok bs ∧ pickleDeserialize bs = .ok v) ∧
    (∀ bs : List Nat, bytesSerialize (.bytes bs) = .ok bs ∧
      bytesDeserialize bs = .ok (.bytes bs)) :=
  ⟨fun v h => ⟨_, jsonSerialize_roundTrip v h⟩,
   fun v => ⟨_, pickleSerialize_roundTrip v⟩,
   fun _ => ⟨rfl, rfl⟩⟩

/-- Witness for C3 at the test suite's representative values: the JSON
mapping `{"a": 1, "b": "x"}`, the pickle value `{"x": [1, 2, 3],
"y": (4, 5)}` (with a tuple, which JSON cannot represent), and the byte
string `b"abc"`. -/
theorem claim_C3_serializer_roundtrips_witness :
    (jsonOk (.dict [("a", .int 1), ("b", .str "x")]) = true ∧
      ∃ bs, jsonSerialize (.dict [("a", .int 1), ("b", .str "x")]) = .ok bs ∧
        jsonDeserialize bs = .ok (.dict [("a", .int 1), ("b", .str "x")])) ∧
    (∃ bs, pickleSerialize (.dict [("x", .list [.int 1, .int 2, .int 3]),
        ("y", .tuple [.int 4, .int 5])]) = .ok bs ∧
      pickleDeserialize bs = .ok (.dict [("x", .list [.int 1, .int 2, .int 3]),
        ("y", .tuple [.int 4, .int 5])])) ∧
    (bytesSerialize (.bytes [97, 98, 99]) = .ok [97, 98, 99] ∧
      bytesDeserialize [97, 98, 99] = .ok (.bytes [97, 98, 99])) :=
  ⟨⟨rfl, claim_C3_serializer_roundtrips.1 _ rfl⟩,
   claim_C3_serializer_roundtrips.2.1 _,
   claim_C3_serializer_roundtrips.2.2 [97, 98, 99]⟩

/-- The message carried by an error (used when one error is recorded as
the cause of another). -/
def errMessage : CacheError → String
  | .keyError m => m
  | .configurationError m => m
  | .connectionError m _ => m
  | .backendError m _ => m
  | .serializationError m => m
  | .typeError m => m
  | .valueError m => m

/-! ## Memory backend (`jinpy_utils/cache/backends.py`, `MemoryCacheBackend`)

Modelled from the spec (§4.4): a mapping from normalized key to
`(value, optional expiry)` with lazy expiry on every read.  The mapping is
an association list; the caller threads the store and the clock
explicitly.  (Thread safety is a concurrency property outside the
embedding; both `thread_safe` modes compute the same function.) -/

/-- One memory-backend entry: the stored native value and its optional
absolute expiry instant. -/
structure MemEntry where
  value : PyValue
  expiresAt : Option ℚ

/-- The memory backend's store. -/
abbrev MemStore := List (String × MemEntry)

/-- Look up a key in the store. -/
def storeLookup : MemStore → String → Option MemEntry
  | [], _ => Option.none
  | (k2, e) :: rest, k => if k2 = k then some e else storeLookup rest k

/-- Remove a key from the store. -/
def storeErase : MemStore → String → MemStore
  | [], _ => []
  | (k2, e) :: rest, k =>
    if k2 = k then storeErase rest k else (k2, e) :: storeErase rest k

/-- Insert or replace a key in the store. -/
def storeInsert (st : MemStore) (k : String) (e : MemEntry) : MemStore :=
  (k, e) :: storeErase st k

/-- Modelled from the spec (§4.4): `set` normalizes the key and stores the
value with the computed expiry. -/
def memSet (now : ℚ) (st : MemStore) (key : String) (v : PyValue)
    (ttl : Option ℚ) : Except CacheError MemStore :=
  (normalize_key key).map
    (fun k => storeInsert st k ⟨v, compute_expiry now ttl⟩)

/-- Modelled from the spec (§4.4): `get` first checks expiry; an expired
entry is deleted and the read reports absence, as though the key never
existed. -/
def memGet (now : ℚ) (st : MemStore) (key : String) :
    Except CacheError (Option PyValue × MemStore) :=
  (normalize_key key).map (fun k =>
    match storeLookup st k with
    | Option.none => (Option.none, st)
    | some e =>
      if isExpired now e.expiresAt then (Option.none, storeErase st k)
      else (some e.value, st))

/-- Modelled from the spec (§4.4): `exists` applies the same lazy-expiry
check as `get`. -/
def memExists (now : ℚ) (st : MemStore) (key : String) :
    Except CacheError (Bool × MemStore) :=
  (normalize_key key).map (fun k =>
    match storeLookup st k with
    | Option.none => (false, st)
    | some e =>
      if isExpired now e.expiresAt then (false, storeErase st k)
      else (true, st))

/-- Modelled from the spec (§4.4): `delete` removes the key; deleting an
absent key is not an error. -/
def memDelete (st : MemStore) (key : String) : Except CacheError MemStore :=
  (normalize_key key).map (fun k => storeErase st k)

/-- The integer base of a numeric operation: the stored integer, or `0`
when the key is absent (the spec defines only the absent case; a stored
non-integer also contributes base `0` here). -/
def intBase : Option PyValue → Int
  | some (.int m) => m
  | _ => 0

/-- Modelled from the spec (§4.4): `increment` creates the key at 0 if
absent, then adds a caller-supplied non-negative amount; a negative amount
fails with the invalid-argument (`CacheKeyError`) error. -/
def memIncr (now : ℚ) (st : MemStore) (key : String) (amount : Int) :
    Except CacheError (Int × MemStore) :=
  if amount < 0 then .error (.keyError "amount must be non-negative")
  else
    match memGet now st key with
    | .error e => .error e
    | .ok (cur, st1) =>
      match memSet now st1 key (.int (intBase cur + amount)) Option.none with
      | .error e => .error e
      | .ok st2 => .ok (intBase cur + amount, st2)

/-- Modelled from the spec (§4.4): `decrement` creates the key at 0 if
absent, then subtracts a non-negative amount; a negative amount fails with
the invalid-argument (`CacheKeyError`) error. -/
def memDecr (now : ℚ) (st : MemStore) (key : String) (amount : Int) :
    Except CacheError (Int × MemStore) :=
  if amount < 0 then .error (.keyError "amount must be non-negative")
  else
    match memGet now st key with
    | .error e => .error e
    | .ok (cur, st1) =>
      match memSet now st1 key (.int (intBase cur - amount)) Option.none with
      | .error e => .error e
      | .ok st2 => .ok (intBase cur - amount, st2)

/-! ## File backend (`jinpy_utils/cache/backends.py`, `FileCacheBackend`)

Modelled from the spec (§4.5 and §6): each entry is a value file named
from the normalized key plus the configured extension, holding the
serialized payload, and an optional sidecar file (same name plus `.ttl`)
holding the absolute expiry instant as text.  The filesystem is a list of
`(path, bytes)` pairs kept in modification order, oldest first: a write
removes any existing file at the path and appends at the end. -/

/-- Modelled from the spec (§6): the file backend's configuration fields.
`serializer` names the serializer kind fixed at construction (the
structured-text kind by default); `max_entries` optionally bounds the
entry count. -/
structure FileCacheConfig where
  name : String
  directory : String
  file_extension : String := ".cache"
  serializer : String := "json"
  max_entries : Option Nat := Option.none

/-- The modelled directory: files as `(path, content)` pairs in
modification order, oldest first. -/
abbrev FileState := List (String × List Nat)

/-- The value-file path for a normalized key
(`{directory}/{key}{extension}`). -/
def path_for (cfg : FileCacheConfig) (k : String) : String :=
  cfg.directory ++ "/" ++ k ++ cfg.file_extension

/-- The sidecar path of a value file (value path plus `.ttl`). -/
def sidecarPath (p : String) : String := p ++ ".ttl"

/-- Look up a file's content by path. -/
def fsLookup : FileState → String → Option (List Nat)
  | [], _ => Option.none
  | (q, bs) :: rest, p => if q = p then some bs else fsLookup rest p

/-- Delete a file by path (no error if absent). -/
def fsErase : FileState → String → FileState
  | [], _ => []
  | (q, bs) :: rest, p =>
    if q = p then fsErase rest p else (q, bs) :: fsErase rest p

/-- Write a file: replace any existing file at the path and move it to
the newest position. -/
def fsWrite (fs : FileState) (p : String) (bs : List Nat) : FileState :=
  fsErase fs p ++ [(p, bs)]

/-- The sidecar text of an expiry instant (a rational number of seconds,
written as `num` or `num/den`). -/
def ratChars (q : ℚ) : List Char :=
  if q.den = 1 then intChars q.num
  else intChars q.num ++ ('/' :: natChars q.den)

/-- Parse a sidecar expiry text back into an instant. -/
def parseRat (cs : List Char) : Option ℚ :=
  match parseInt cs with
  | Option.none => Option.none
  | some (n, rest) =>
    match rest with
    | [] => some ((n : ℚ))
    | c :: rest2 =>
      if c = '/' then
        match parseNat rest2 with
        | Option.none => Option.none
        | some (d, rest3) =>
          match rest3 with
          | [] => if d = 0 then Option.none else some ((n : ℚ) / (d : ℚ))
          | _ :: _ => Option.none
      else Option.none

/-- Decode a sidecar file's bytes into the expiry instant it records. -/
def parseExpiry (bs : List Nat) : Option ℚ :=
  match utf8DecodeChars bs.length bs with
  | Option.none => Option.none
  | some cs => parseRat cs

/-- Whether one string ends with another. -/
def strEndsWith (s suffixStr : String) : Bool :=
  suffixStr.toList.isSuffixOf s.toList

/-- Whether a path is a value file the backend manages: it carries the
configured extension and is not a `.ttl` sidecar. -/
def isValueFile (cfg : FileCacheConfig) (p : String) : Bool :=
  strEndsWith p cfg.file_extension && !(strEndsWith p ".ttl")

/-- The number of value files (cache entries) currently stored. -/
def countValues (cfg : FileCacheConfig) (fs : FileState) : Nat :=
  (fs.filter (fun pr => isValueFile cfg pr.1)).length

/-- Remove the single oldest surviving value file (by
creation/modification order) together with its sidecar. -/
def evictOldest (cfg : FileCacheConfig) : FileState → FileState
  | [] => []
  | (p, bs) :: rest =>
    if isValueFile cfg p then fsErase rest (sidecarPath p)
    else (p, bs) :: evictOldest cfg rest

/-- Remove oldest entries until the entry count is at or under the cap
(fuel-bounded; the file count suffices as fuel). -/
def enforceMaxAux (cfg : FileCacheConfig) (m : Nat) : Nat → FileState → FileState
  | 0, fs => fs
  | fuel + 1, fs =>
    if countValues cfg fs ≤ m then fs
    else enforceMaxAux cfg m fuel (evictOldest cfg fs)

/-- Modelled from the spec (§4.5, eviction policy): after a successful
write, enforce `max_entries` (when configured) by removing oldest entries
until the count is at or under the cap. -/
def fileEvict (cfg : FileCacheConfig) (fs : FileState) : FileState :=
  match cfg.max_entries with
  | Option.none => fs
  | some m => enforceMaxAux cfg m fs.length fs

/-- Write one entry's files: the value file always, and the sidecar
written or removed according to the TTL. -/
def fileWriteEntry (cfg : FileCacheConfig) (now : ℚ) (fs : FileState)
    (k : String) (bs : List Nat) (ttl : Option ℚ) : FileState :=
  match compute_expiry now ttl with
  | some e =>
      fsWrite (fsWrite fs (path_for cfg k) bs) (sidecarPath (path_for cfg k))
        (utf8EncodeChars (ratChars e))
  | Option.none => fsErase (fsWrite fs (path_for cfg k) bs)
      (sidecarPath (path_for cfg k))

/-- Modelled from the spec (§4.5, write path): serialize, write the value
file, write or omit the sidecar per TTL, then enforce the entry cap. -/
def fileSet (cfg : FileCacheConfig) (now : ℚ) (fs : FileState) (key : String)
    (v : PyValue) (ttl : Option ℚ) : Except CacheError FileState :=
  match normalize_key key with
  | .error e => .error e
  | .ok k =>
    match default_serializer cfg.serializer with
    | .error e => .error e
    | .ok sd =>
      match sd.1 v with
      | .error e => .error e
      | .ok bs => .ok (fileEvict cfg (fileWriteEntry cfg now fs k bs ttl))

/-- Read a value file and decode it; a decoding failure is a backend
error (corrupted on disk), never a miss. -/
def fileReadValue (dec : List Nat → Except CacheError PyValue)
    (fs : FileState) (p : String) : Except CacheError (Option PyValue × FileState) :=
  match fsLookup fs p with
  | Option.none => .ok (Option.none, fs)
  | some bs =>
    match dec bs with
    | .ok v => .ok (some v, fs)
    | .error e =>
        .error (.backendError "failed to deserialize cached value"
          (some (errMessage e)))

/-- Modelled from the spec (§4.5): `get` checks the sidecar first; if
present and its instant is in the past, the value file and sidecar are
deleted and the key is reported absent.  Otherwise the value file is read
through the configured serializer. -/
def fileGet (cfg : FileCacheConfig) (now : ℚ) (fs : FileState) (key : String) :
    Except CacheError (Option PyValue × FileState) :=
  match normalize_key key with
  | .error e => .error e
  | .ok k =>
    match default_serializer cfg.serializer with
    | .error e => .error e
    | .ok sd =>
      match fsLookup fs (sidecarPath (path_for cfg k)) with
      | some tb =>
        match parseExpiry tb with
        | Option.none =>
            .error (.backendError "unreadable expiry sidecar" Option.none)
        | some e =>
          if e ≤ now then
            .ok (Option.none,
              fsErase (fsErase fs (path_for cfg k))
                (sidecarPath (path_for cfg k)))
          else fileReadValue sd.2 fs (path_for cfg k)
      | Option.none => fileReadValue sd.2 fs (path_for cfg k)

/-- Modelled from the spec (§4.5): `exists` applies the same
sidecar-first lazy-eviction check, then tests the value file's
existence. -/
def fileExists (cfg : FileCacheConfig) (now : ℚ) (fs : FileState)
    (key : String) : Except CacheError (Bool × FileState) :=
  match normalize_key key with
  | .error e => .error e
  | .ok k =>
    match fsLookup fs (sidecarPath (path_for cfg k)) with
    | some tb =>
      match parseExpiry tb with
      | Option.none =>
          .error (.backendError "unreadable expiry sidecar" Option.none)
      | some e =>
        if e ≤ now then
          .ok (false,
            fsErase (fsErase fs (path_for cfg k))
              (sidecarPath (path_for cfg k)))
        else .ok ((fsLookup fs (path_for cfg k)).isSome, fs)
    | Option.none => .ok ((fsLookup fs (path_for cfg k)).isSome, fs)

/-- Modelled from the spec (§4.5): `increment` read-modify-writes the
numeric value through the configured serializer, with the identical
non-negative-amount contract as the memory backend. -/
def fileIncr (cfg : FileCacheConfig) (now : ℚ) (fs : FileState)
    (key : String) (amount : Int) : Except CacheError (Int × FileState) :=
  if amount < 0 then .error (.keyError "amount must be non-negative")
  else
    match fileGet cfg now fs key with
    | .error e => .error e
    | .ok (cur, fs1) =>
      match fileSet cfg now fs1 key (.int (intBase cur + amount)) Option.none with
      | .error e => .error e
      | .ok fs2 => .ok (intBase cur + amount, fs2)

/-- Modelled from the spec (§4.5): `decrement`, with the same contract. -/
def fileDecr (cfg : FileCacheConfig) (now : ℚ) (fs : FileState)
    (key : String) (amount : Int) : Except CacheError (Int × FileState) :=
  if amount < 0 then .error (.keyError "amount must be non-negative")
  else
    match fileGet cfg now fs key with
    | .error e => .error e
    | .ok (cur, fs1) =>
      match fileSet cfg now fs1 key (.int (intBase cur - amount)) Option.none with
      | .error e => .error e
      | .ok fs2 => .ok (intBase cur - amount, fs2)

/-! ### Store and filesystem lemmas -/

/-- Inserting then looking up the same key finds the new entry. -/
theorem storeLookup_insert (st : MemStore) (k : String) (e : MemEntry) :
    storeLookup (storeInsert st k e) k = some e := by
  rw [storeInsert, storeLookup, if_pos rfl]

/-- An erased key is absent. -/
theorem storeLookup_erase_self (st : MemStore) (k : String) :
    storeLookup (storeErase st k) k = Option.none := by
  induction st with
  | nil => rfl
  | cons p rest ih =>
    obtain ⟨k2, e⟩ := p
    rw [storeErase]
    by_cases h : k2 = k
    · rw [if_pos h]
      exact ih
    · rw [if_neg h, storeLookup, if_neg h]
      exact ih

/-- Erasing one path leaves other paths untouched. -/
theorem fsLookup_erase_ne (fs : FileState) (q p : String) (h : q ≠ p) :
    fsLookup (fsErase fs q) p = fsLookup fs p := by
  induction fs with
  | nil => rfl
  | cons pr rest ih =>
    obtain ⟨r, bs⟩ := pr
    rw [fsErase]
    by_cases hr : r = q
    · rw [if_pos hr, ih, fsLookup, if_neg (by rw [hr]; exact h)]
    · rw [if_neg hr, fsLookup, fsLookup]
      by_cases hp : r = p
      · rw [if_pos hp, if_pos hp]
      · rw [if_neg hp, if_neg hp]
        exact ih

/-- An erased path is absent. -/
theorem fsLookup_erase_self (fs : FileState) (p : String) :
    fsLookup (fsErase fs p) p = Option.none := by
  induction fs with
  | nil => rfl
  | cons pr rest ih =>
    obtain ⟨r, bs⟩ := pr
    rw [fsErase]
    by_cases hr : r = p
    · rw [if_pos hr]
      exact ih
    · rw [if_neg hr, fsLookup, if_neg hr]
      exact ih

/-- A written file is found with its new content. -/
theorem fsLookup_write_self (fs : FileState) (p : String) (bs : List Nat) :
    fsLookup (fsWrite fs p bs) p = some bs := by
  rw [fsWrite]
  induction fs with
  | nil =>
    show fsLookup [(p, bs)] p = some bs
    rw [fsLookup, if_pos rfl]
  | cons pr rest ih =>
    obtain ⟨r, c⟩ := pr
    rw [fsErase]
    by_cases hr : r = p
    · rw [if_pos hr]
      exact ih
    · rw [if_neg hr, List.cons_append, fsLookup, if_neg hr]
      exact ih

/-- Writing one path leaves other paths untouched. -/
theorem fsLookup_write_ne (fs : FileState) (p q : String) (bs : List Nat)
    (h : p ≠ q) : fsLookup (fsWrite fs p bs) q = fsLookup fs q := by
  rw [fsWrite]
  induction fs with
  | nil =>
    show fsLookup [(p, bs)] q = Option.none
    rw [fsLookup, if_neg h]
    rfl
  | cons pr rest ih =>
    obtain ⟨r, c⟩ := pr
    rw [fsErase]
    by_cases hr : r = p
    · rw [if_pos hr, ih, fsLookup, if_neg (by rw [hr]; exact h)]
    · rw [if_neg hr, List.cons_append, fsLookup, fsLookup]
      by_cases hq : r = q
      · rw [if_pos hq, if_pos hq]
      · rw [if_neg hq, if_neg hq]
        exact ih

/-- A sidecar path never coincides with its value path. -/
theorem sidecarPath_ne (p : String) : sidecarPath p ≠ p := by
  intro h
  have hlen := congrArg String.length h
  rw [sidecarPath, String.length_append] at hlen
  have h4 : ".ttl".length = 4 := rfl
  omega

/-- A value path never coincides with its sidecar path. -/
theorem ne_sidecarPath (p : String) : p ≠ sidecarPath p :=
  fun h => sidecarPath_ne p h.symm

/-- The sidecar text of an instant parses back to that instant. -/
theorem parseRat_ratChars (q : ℚ) : parseRat (ratChars q) = some q := by
  rw [ratChars]
  by_cases h1 : q.den = 1
  · rw [if_pos h1, parseRat]
    have hq : parseInt (intChars q.num) = some (q.num, []) := by
      have := parseInt_intChars q.num [] trivial
      rwa [List.append_nil] at this
    rw [hq]
    show some ((q.num : ℚ)) = some q
    congr 1
    conv_rhs => rw [← Rat.num_div_den q]
    rw [h1]
    simp
  · rw [if_neg h1, parseRat]
    rw [parseInt_intChars q.num ('/' :: natChars q.den)
      (by show isDigitChar '/' = false; decide)]
    show (if '/' = '/' then
        match parseNat (natChars q.den) with
        | Option.none => Option.none
        | some (d, rest3) =>
          match rest3 with
          | [] => if d = 0 then Option.none
                  else some ((q.num : ℚ) / (d : ℚ))
          | _ :: _ => Option.none
      else Option.none) = some q
    rw [if_pos rfl]
    have hp : parseNat (natChars q.den) = some (q.den, []) := by
      have := parseNat_natChars q.den [] trivial
      rwa [List.append_nil] at this
    rw [hp]
    show (if q.den = 0 then Option.none
      else some ((q.num : ℚ) / (q.den : ℚ))) = some q
    rw [if_neg q.den_nz]
    congr 1
    exact Rat.num_div_den q

/-- A sidecar file written by the backend decodes to the instant it
records. -/
theorem parseExpiry_encode (q : ℚ) :
    parseExpiry (utf8EncodeChars (ratChars q)) = some q := by
  rw [parseExpiry,
    utf8DecodeChars_encodeChars (ratChars q) _ (length_le_utf8EncodeChars _)]
  exact parseRat_ratChars q

/-! ## Claim C1 -/

/-- C1: for the memory and file backends, every read or existence check
on a key whose entry has expired (its expiry instant is at or before now)
deletes the entry and reports the key absent (`get` returns the missing
value, `exists` returns false), exactly as if the key never existed; in
particular, after `set` with `ttl = 0`, `get` returns `None` and `exists`
returns `False`, and on the file backend both the value file and its
sidecar are removed by the check.  (The `ttl = 0` file conjunct is stated
for a backend without an entry cap, matching the test configuration;
eviction is an independent mechanism.) -/
theorem claim_C1_lazy_expiry :
    (∀ (now : ℚ) (st : MemStore) (key k : String) (ent : MemEntry) (e : ℚ),
      normalize_key key = .ok k → storeLookup st k = some ent →
      ent.expiresAt = some e → e ≤ now →
      memGet now st key = .ok (Option.none, storeErase st k) ∧
      memExists now st key = .ok (false, storeErase st k) ∧
      storeLookup (storeErase st k) k = Option.none) ∧
    (∀ (now now2 : ℚ) (st : MemStore) (key k : String) (v : PyValue),
      normalize_key key = .ok k → now ≤ now2 →
      ∃ st1 : MemStore, memSet now st key v (some 0) = .ok st1 ∧
        memGet now2 st1 key = .ok (Option.none, storeErase st1 k) ∧
        memExists now2 st1 key = .ok (false, storeErase st1 k) ∧
        storeLookup (storeErase st1 k) k = Option.none) ∧
    (∀ (cfg : FileCacheConfig) (now : ℚ) (fs : FileState) (key k : String)
        (e : ℚ),
      cfg.serializer = "json" → normalize_key key = .ok k →
      fsLookup fs (sidecarPath (path_for cfg k)) =
        some (utf8EncodeChars (ratChars e)) →
      e ≤ now →
      fileGet cfg now fs key = .ok (Option.none,
        fsErase (fsErase fs (path_for cfg k)) (sidecarPath (path_for cfg k))) ∧
      fileExists cfg now fs key = .ok (false,
        fsErase (fsErase fs (path_for cfg k)) (sidecarPath (path_for cfg k))) ∧
      fsLookup (fsErase (fsErase fs (path_for cfg k))
        (sidecarPath (path_for cfg k))) (path_for cfg k) = Option.none ∧
      fsLookup (fsErase (fsErase fs (path_for cfg k))
        (sidecarPath (path_for cfg k))) (sidecarPath (path_for cfg k)) =
        Option.none) ∧
    (∀ (cfg : FileCacheConfig) (now now2 : ℚ) (fs : FileState)
        (key k : String) (v : PyValue),
      cfg.serializer = "json" → cfg.max_entries = Option.none →
      jsonOk v = true → normalize_key key = .ok k → now ≤ now2 →
      ∃ fs1 fs2 : FileState, fileSet cfg now fs key v (some 0) = .ok fs1 ∧
        fileGet cfg now2 fs1 key = .ok (Option.none, fs2) ∧
        fileExists cfg now2 fs1 key = .ok (false, fs2) ∧
        fsLookup fs2 (path_for cfg k) = Option.none ∧
        fsLookup fs2 (sidecarPath (path_for cfg k)) = Option.none) := by
  have hds : default_serializer "json" = .ok (jsonSerialize, jsonDeserialize) :=
    rfl
  refine ⟨?_, ?_, ?_, ?_⟩
  · intro now st key k ent e hk hl hexp hle
    have hex : isExpired now ent.expiresAt = true := by
      rw [hexp, isExpired]
      exact decide_eq_true hle
    refine ⟨?_, ?_, storeLookup_erase_self st k⟩
    · rw [memGet, hk]
      simp only [Except.map, hl]
      rw [if_pos hex]
    · rw [memExists, hk]
      simp only [Except.map, hl]
      rw [if_pos hex]
  · intro now now2 st key k v hk hmono
    have hset : memSet now st key v (some 0) =
        .ok (storeInsert st k ⟨v, some (now + 0)⟩) := by
      rw [memSet, hk]
      rfl
    have hex : isExpired now2 (some (now + 0)) = true := by
      rw [isExpired]
      exact decide_eq_true (by rw [add_zero]; exact hmono)
    refine ⟨storeInsert st k ⟨v, some (now + 0)⟩, hset, ?_, ?_,
      storeLookup_erase_self _ k⟩
    · rw [memGet, hk]
      simp only [Except.map, storeLookup_insert]
      rw [if_pos hex]
    · rw [memExists, hk]
      simp only [Except.map, storeLookup_insert]
      rw [if_pos hex]
  · intro cfg now fs key k e hser hk hside hle
    refine ⟨?_, ?_, ?_, fsLookup_erase_self _ _⟩
    · rw [fileGet, hk]
      simp only [hser, hds, hside, parseExpiry_encode]
      rw [if_pos hle]
    · rw [fileExists, hk]
      simp only [hside, parseExpiry_encode]
      rw [if_pos hle]
    · rw [fsLookup_erase_ne _ _ _ (sidecarPath_ne (path_for cfg k)),
        fsLookup_erase_self]
  · intro cfg now now2 fs key k v hser hmax hjson hk hmono
    have henc : jsonSerialize v = .ok (utf8EncodeChars (jsonDump v)) := by
      rw [jsonSerialize, if_pos hjson]
    have hset : fileSet cfg now fs key v (some 0) =
        .ok (fsWrite (fsWrite fs (path_for cfg k)
          (utf8EncodeChars (jsonDump v))) (sidecarPath (path_for cfg k))
          (utf8EncodeChars (ratChars (now + 0)))) := by
      rw [fileSet, hk]
      simp only [hser, hds, henc]
      rw [fileEvict, hmax]
      rfl
    have hlook : fsLookup (fsWrite (fsWrite fs (path_for cfg k)
        (utf8EncodeChars (jsonDump v))) (sidecarPath (path_for cfg k))
        (utf8EncodeChars (ratChars (now + 0))))
        (sidecarPath (path_for cfg k)) =
        some (utf8EncodeChars (ratChars (now + 0))) :=
      fsLookup_write_self _ _ _
    have hle2 : now + 0 ≤ now2 := by rw [add_zero]; exact hmono
    refine ⟨_, fsErase (fsErase (fsWrite (fsWrite fs (path_for cfg k)
      (utf8EncodeChars (jsonDump v))) (sidecarPath (path_for cfg k))
      (utf8EncodeChars (ratChars (now + 0)))) (path_for cfg k))
      (sidecarPath (path_for cfg k)), hset, ?_, ?_, ?_,
      fsLookup_erase_self _ _⟩
    · rw [fileGet, hk]
      simp only [hser, hds, hlook, parseExpiry_encode]
      rw [if_pos hle2]
    · rw [fileExists, hk]
      simp only [hlook, parseExpiry_encode]
      rw [if_pos hle2]
    · rw [fsLookup_erase_ne _ _ _ (sidecarPath_ne (path_for cfg k)),
        fsLookup_erase_self]

/-- Witness for C1: in a memory store holding `"k"` expired at instant 1
with the clock at 2, and a file store holding `"k"`'s value file and an
expired sidecar, reads and existence checks evict and report absence; a
`ttl = 0` write behaves the same one instant later. -/
theorem claim_C1_lazy_expiry_witness :
    (normalize_key "k" = .ok "k" ∧
      storeLookup [("k", ⟨PyValue.int 7, some 1⟩)] "k" =
        some ⟨PyValue.int 7, some 1⟩ ∧
      (⟨PyValue.int 7, some 1⟩ : MemEntry).expiresAt = some 1 ∧
      (1 : ℚ) ≤ 2 ∧
      (memGet 2 [("k", ⟨PyValue.int 7, some 1⟩)] "k" =
        .ok (Option.none, storeErase [("k", ⟨PyValue.int 7, some 1⟩)] "k") ∧
      memExists 2 [("k", ⟨PyValue.int 7, some 1⟩)] "k" =
        .ok (false, storeErase [("k", ⟨PyValue.int 7, some 1⟩)] "k") ∧
      storeLookup (storeErase [("k", ⟨PyValue.int 7, some 1⟩)] "k") "k" =
        Option.none)) ∧
    (∃ fs1 fs2 : FileState,
      fileSet { name := "f", directory := "d" } 1 [] "k" (PyValue.int 7)
        (some 0) = .ok fs1 ∧
      fileGet { name := "f", directory := "d" } 2 fs1 "k" =
        .ok (Option.none, fs2) ∧
      fileExists { name := "f", directory := "d" } 2 fs1 "k" =
        .ok (false, fs2) ∧
      fsLookup fs2 (path_for { name := "f", directory := "d" } "k") =
        Option.none ∧
      fsLookup fs2 (sidecarPath
        (path_for { name := "f", directory := "d" } "k")) = Option.none) := by
  constructor
  · exact ⟨rfl, rfl, rfl, by norm_num,
      claim_C1_lazy_expiry.1 2 [("k", ⟨PyValue.int 7, some 1⟩)] "k" "k"
        ⟨PyValue.int 7, some 1⟩ 1 rfl rfl rfl (by norm_num)⟩
  · exact claim_C1_lazy_expiry.2.2.2 { name := "f", directory := "d" } 1 2 []
      "k" "k" (PyValue.int 7) rfl rfl rfl rfl (by norm_num)

/-- With no configured cap, the post-write eviction pass is the
identity. -/
theorem fileEvict_of_none (cfg : FileCacheConfig) (fs : FileState)
    (h : cfg.max_entries = Option.none) : fileEvict cfg fs = fs := by
  rw [fileEvict.eq_def, h]

/-! ## Claim C5 -/

/-- C5: on the memory and file backends, `increment` and `decrement`
applied to an absent key initialize the key at 0 before applying the
delta (so a first increment by 1 returns 1 and a following decrement by 1
returns 0), and both operations raise the invalid-argument error
(`CacheKeyError`) for every negative amount, for every key.  (The
increment-then-decrement file conjunct is stated for a backend without an
entry cap, matching the test configuration.) -/
theorem claim_C5_incr_decr :
    (∀ (now : ℚ) (st : MemStore) (key : String) (a : Int), a < 0 →
      memIncr now st key a = .error (.keyError "amount must be non-negative")) ∧
    (∀ (now : ℚ) (st : MemStore) (key : String) (a : Int), a < 0 →
      memDecr now st key a = .error (.keyError "amount must be non-negative")) ∧
    (∀ (cfg : FileCacheConfig) (now : ℚ) (fs : FileState) (key : String)
        (a : Int), a < 0 →
      fileIncr cfg now fs key a =
        .error (.keyError "amount must be non-negative")) ∧
    (∀ (cfg : FileCacheConfig) (now : ℚ) (fs : FileState) (key : String)
        (a : Int), a < 0 →
      fileDecr cfg now fs key a =
        .error (.keyError "amount must be non-negative")) ∧
    (∀ (now : ℚ) (st : MemStore) (key k : String) (a : Int), 0 ≤ a →
      normalize_key key = .ok k → storeLookup st k = Option.none →
      ∃ st1 : MemStore, memIncr now st key a = .ok (a, st1)) ∧
    (∀ (now now2 : ℚ) (st : MemStore) (key k : String),
      normalize_key key = .ok k → storeLookup st k = Option.none →
      ∃ st1 st2 : MemStore, memIncr now st key 1 = .ok (1, st1) ∧
        memDecr now2 st1 key 1 = .ok (0, st2)) ∧
    (∀ (cfg : FileCacheConfig) (now : ℚ) (fs : FileState) (key k : String)
        (a : Int), 0 ≤ a → cfg.serializer = "json" →
      normalize_key key = .ok k →
      fsLookup fs (path_for cfg k) = Option.none →
      fsLookup fs (sidecarPath (path_for cfg k)) = Option.none →
      ∃ fs1 : FileState, fileIncr cfg now fs key a = .ok (a, fs1)) ∧
    (∀ (cfg : FileCacheConfig) (now now2 : ℚ) (fs : FileState)
        (key k : String), cfg.serializer = "json" →
      cfg.max_entries = Option.none → normalize_key key = .ok k →
      fsLookup fs (path_for cfg k) = Option.none →
      fsLookup fs (sidecarPath (path_for cfg k)) = Option.none →
      ∃ fs1 fs2 : FileState, fileIncr cfg now fs key 1 = .ok (1, fs1) ∧
        fileDecr cfg now2 fs1 key 1 = .ok (0, fs2)) := by
  have hds : default_serializer "json" = .ok (jsonSerialize, jsonDeserialize) :=
    rfl
  have hb0 : intBase Option.none = 0 := rfl
  refine ⟨fun now st key a ha => by rw [memIncr, if_pos ha],
    fun now st key a ha => by rw [memDecr, if_pos ha],
    fun cfg now fs key a ha => by rw [fileIncr, if_pos ha],
    fun cfg now fs key a ha => by rw [fileDecr, if_pos ha],
    ?_, ?_, ?_, ?_⟩
  · -- memory: increment initializes an absent key at 0
    intro now st key k a ha hk hl
    have hg : memGet now st key = .ok (Option.none, st) := by
      rw [memGet, hk]
      simp only [Except.map, hl]
    have hs : memSet now st key (.int (intBase Option.none + a)) Option.none =
        .ok (storeInsert st k ⟨.int (intBase Option.none + a), Option.none⟩) := by
      rw [memSet, hk]
      rfl
    refine ⟨storeInsert st k ⟨.int (intBase Option.none + a), Option.none⟩, ?_⟩
    rw [memIncr, if_neg (by omega)]
    simp only [hg]
    simp only [hs]
    simp only [hb0, zero_add]
  · -- memory: increment then decrement on an absent key
    intro now now2 st key k hk hl
    have hg : memGet now st key = .ok (Option.none, st) := by
      rw [memGet, hk]
      simp only [Except.map, hl]
    have hs : memSet now st key (.int 1) Option.none =
        .ok (storeInsert st k ⟨.int 1, Option.none⟩) := by
      rw [memSet, hk]
      rfl
    refine ⟨storeInsert st k ⟨.int 1, Option.none⟩,
      storeInsert (storeInsert st k ⟨.int 1, Option.none⟩) k
        ⟨.int 0, Option.none⟩, ?_, ?_⟩
    · rw [memIncr, if_neg (by omega)]
      simp only [hg]
      rw [show PyValue.int (intBase Option.none + 1) = PyValue.int 1 from rfl]
      simp only [hs]
      rfl
    · have hg2 : memGet now2 (storeInsert st k ⟨.int 1, Option.none⟩) key =
          .ok (some (.int 1), storeInsert st k ⟨.int 1, Option.none⟩) := by
        rw [memGet, hk]
        simp only [Except.map, storeLookup_insert]
        rfl
      have hs2 : memSet now2 (storeInsert st k ⟨.int 1, Option.none⟩) key
          (.int 0) Option.none =
          .ok (storeInsert (storeInsert st k ⟨.int 1, Option.none⟩) k
            ⟨.int 0, Option.none⟩) := by
        rw [memSet, hk]
        rfl
      rw [memDecr, if_neg (by omega)]
      simp only [hg2]
      rw [show PyValue.int (intBase (some (PyValue.int 1)) - 1) =
        PyValue.int 0 from rfl]
      simp only [hs2]
      rfl
  · -- file: increment initializes an absent key at 0
    intro cfg now fs key k a ha hser hk hvl hsl
    have hget : fileGet cfg now fs key = .ok (Option.none, fs) := by
      rw [fileGet, hk]
      simp only [hser, hds, hsl]
      rw [fileReadValue, hvl]
    have hset : fileSet cfg now fs key (.int (intBase Option.none + a))
        Option.none = .ok (fileEvict cfg (fsErase (fsWrite fs (path_for cfg k)
          (utf8EncodeChars (jsonDump (.int (intBase Option.none + a)))))
          (sidecarPath (path_for cfg k)))) := by
      rw [fileSet, hk]
      simp only [hser, hds]
      rw [jsonSerialize, if_pos (show jsonOk
        (PyValue.int (intBase Option.none + a)) = true from rfl)]
      rfl
    refine ⟨fileEvict cfg (fsErase (fsWrite fs (path_for cfg k)
      (utf8EncodeChars (jsonDump (PyValue.int (intBase Option.none + a)))))
      (sidecarPath (path_for cfg k))), ?_⟩
    rw [fileIncr, if_neg (by omega)]
    simp only [hget]
    simp only [hset]
    simp only [hb0, zero_add]
  · -- file: increment then decrement on an absent key
    intro cfg now now2 fs key k hser hmax hk hvl hsl
    have hget : fileGet cfg now fs key = .ok (Option.none, fs) := by
      rw [fileGet, hk]
      simp only [hser, hds, hsl]
      rw [fileReadValue, hvl]
    have hset : fileSet cfg now fs key (.int 1) Option.none =
        .ok (fsErase (fsWrite fs (path_for cfg k)
          (utf8EncodeChars (jsonDump (.int 1))))
          (sidecarPath (path_for cfg k))) := by
      rw [fileSet, hk]
      simp only [hser, hds]
      have henc1 : jsonSerialize (PyValue.int 1) =
          .ok (utf8EncodeChars (jsonDump (PyValue.int 1))) := by
        rw [jsonSerialize]
        rfl
      simp only [henc1]
      rw [show fileWriteEntry cfg now fs k
        (utf8EncodeChars (jsonDump (PyValue.int 1))) Option.none =
        fsErase (fsWrite fs (path_for cfg k)
          (utf8EncodeChars (jsonDump (PyValue.int 1))))
          (sidecarPath (path_for cfg k)) from rfl,
        fileEvict_of_none cfg _ hmax]
    refine ⟨fsErase (fsWrite fs (path_for cfg k)
        (utf8EncodeChars (jsonDump (.int 1)))) (sidecarPath (path_for cfg k)),
      fsErase (fsWrite (fsErase (fsWrite fs (path_for cfg k)
        (utf8EncodeChars (jsonDump (PyValue.int 1))))
        (sidecarPath (path_for cfg k))) (path_for cfg k)
        (utf8EncodeChars (jsonDump (PyValue.int 0))))
        (sidecarPath (path_for cfg k)), ?_, ?_⟩
    · rw [fileIncr, if_neg (by omega)]
      simp only [hget]
      rw [show PyValue.int (intBase Option.none + 1) = PyValue.int 1 from rfl]
      simp only [hset]
      rfl
    · have hget2 : fileGet cfg now2 (fsErase (fsWrite fs (path_for cfg k)
          (utf8EncodeChars (jsonDump (.int 1))))
          (sidecarPath (path_for cfg k))) key =
          .ok (some (.int 1), fsErase (fsWrite fs (path_for cfg k)
            (utf8EncodeChars (jsonDump (.int 1))))
            (sidecarPath (path_for cfg k))) := by
        rw [fileGet, hk]
        simp only [hser, hds, fsLookup_erase_self]
        rw [fileReadValue,
          fsLookup_erase_ne _ _ _ (sidecarPath_ne (path_for cfg k)),
          fsLookup_write_self]
        simp only [(jsonSerialize_roundTrip (.int 1) rfl).2]
      have hset2 : fileSet cfg now2 (fsErase (fsWrite fs (path_for cfg k)
          (utf8EncodeChars (jsonDump (.int 1))))
          (sidecarPath (path_for cfg k))) key (.int 0) Option.none =
          .ok (fsErase (fsWrite (fsErase (fsWrite fs (path_for cfg k)
            (utf8EncodeChars (jsonDump (.int 1))))
            (sidecarPath (path_for cfg k))) (path_for cfg k)
            (utf8EncodeChars (jsonDump (.int 0))))
            (sidecarPath (path_for cfg k))) := by
        rw [fileSet, hk]
        simp only [hser, hds]
        have henc0 : jsonSerialize (PyValue.int 0) =
            .ok (utf8EncodeChars (jsonDump (PyValue.int 0))) := by
          rw [jsonSerialize]
          rfl
        simp only [henc0]
        rw [show fileWriteEntry cfg now2 (fsErase (fsWrite fs (path_for cfg k)
            (utf8EncodeChars (jsonDump (PyValue.int 1))))
            (sidecarPath (path_for cfg k))) k
            (utf8EncodeChars (jsonDump (PyValue.int 0))) Option.none =
          fsErase (fsWrite (fsErase (fsWrite fs (path_for cfg k)
            (utf8EncodeChars (jsonDump (PyValue.int 1))))
            (sidecarPath (path_for cfg k))) (path_for cfg k)
            (utf8EncodeChars (jsonDump (PyValue.int 0))))
            (sidecarPath (path_for cfg k)) from rfl,
          fileEvict_of_none cfg _ hmax]
      rw [fileDecr, if_neg (by omega)]
      simp only [hget2]
      rw [show PyValue.int (intBase (some (PyValue.int 1)) - 1) =
        PyValue.int 0 from rfl]
      simp only [hset2]
      rfl

/-- Witness for C5: on a fresh memory store and a fresh file store, a
negative amount is rejected with the `CacheKeyError`-class error, a first
increment of the absent key `"c"`/`"n"` by 1 returns 1, and the following
decrement by 1 returns 0. -/
theorem claim_C5_incr_decr_witness :
    ((-1 : Int) < 0 ∧
      memIncr 0 [] "c" (-1) =
        .error (.keyError "amount must be non-negative") ∧
      memDecr 0 [] "c" (-1) =
        .error (.keyError "amount must be non-negative") ∧
      fileIncr { name := "f", directory := "d" } 0 [] "n" (-1) =
        .error (.keyError "amount must be non-negative") ∧
      fileDecr { name := "f", directory := "d" } 0 [] "n" (-1) =
        .error (.keyError "amount must be non-negative")) ∧
    (normalize_key "c" = .ok "c" ∧
      storeLookup ([] : MemStore) "c" = Option.none ∧
      ∃ st1 st2 : MemStore, memIncr 0 [] "c" 1 = .ok (1, st1) ∧
        memDecr 0 st1 "c" 1 = .ok (0, st2)) ∧
    (∃ fs1 fs2 : FileState,
      fileIncr { name := "f", directory := "d" } 0 [] "n" 1 = .ok (1, fs1) ∧
      fileDecr { name := "f", directory := "d" } 0 fs1 "n" 1 = .ok (0, fs2)) :=
  ⟨⟨by norm_num,
    claim_C5_incr_decr.1 0 [] "c" (-1) (by norm_num),
    claim_C5_incr_decr.2.1 0 [] "c" (-1) (by norm_num),
    claim_C5_incr_decr.2.2.1 { name := "f", directory := "d" } 0 [] "n" (-1)
      (by norm_num),
    claim_C5_incr_decr.2.2.2.1 { name := "f", directory := "d" } 0 [] "n" (-1)
      (by norm_num)⟩,
   ⟨rfl, rfl,
    claim_C5_incr_decr.2.2.2.2.2.1 0 0 [] "c" "c" rfl rfl⟩,
   claim_C5_incr_decr.2.2.2.2.2.2.2 { name := "f", directory := "d" } 0 0 []
     "n" "n" rfl rfl rfl rfl rfl⟩

/-! ### Eviction lemmas -/

/-- A sidecar is never counted as a value file. -/
theorem isValueFile_sidecarPath (cfg : FileCacheConfig) (p : String) :
    isValueFile cfg (sidecarPath p) = false := by
  have hsuf : strEndsWith (sidecarPath p) ".ttl" = true := by
    rw [strEndsWith, sidecarPath]
    rw [show (p ++ ".ttl").toList = p.toList ++ ".ttl".toList from
      String.data_append p ".ttl"]
    exact (List.isSuffixOf_iff_suffix).mpr (List.suffix_append _ _)
  rw [isValueFile, hsuf]
  simp

/-- Counting value files distributes over a cons. -/
theorem countValues_cons (cfg : FileCacheConfig) (p : String) (bs : List Nat)
    (fs : FileState) :
    countValues cfg ((p, bs) :: fs) =
      (if isValueFile cfg p then 1 else 0) + countValues cfg fs := by
  by_cases h : isValueFile cfg p
  · simp [countValues, List.filter_cons, h]
    omega
  · simp [countValues, List.filter_cons, h]

/-- Erasing a non-value path does not change the entry count. -/
theorem countValues_erase (cfg : FileCacheConfig) (fs : FileState) (q : String)
    (hq : isValueFile cfg q = false) :
    countValues cfg (fsErase fs q) = countValues cfg fs := by
  induction fs with
  | nil => rfl
  | cons pr rest ih =>
    obtain ⟨r, bs⟩ := pr
    rw [fsErase]
    by_cases hr : r = q
    · rw [if_pos hr, ih, countValues_cons, hr, hq]
      simp
    · rw [if_neg hr, countValues_cons, countValues_cons, ih]

/-- When at least one entry exists, evicting the oldest removes exactly
one. -/
theorem countValues_evictOldest (cfg : FileCacheConfig) :
    ∀ fs : FileState, 0 < countValues cfg fs →
      countValues cfg (evictOldest cfg fs) + 1 = countValues cfg fs := by
  intro fs
  induction fs with
  | nil => intro h; exact absurd h (by simp [countValues])
  | cons pr rest ih =>
    obtain ⟨p, bs⟩ := pr
    intro h
    rw [evictOldest]
    by_cases hp : isValueFile cfg p
    · rw [if_pos hp, countValues_cons, if_pos hp,
        countValues_erase cfg rest _ (isValueFile_sidecarPath cfg p)]
      omega
    · rw [if_neg hp, countValues_cons, if_neg hp, countValues_cons, if_neg hp]
      rw [countValues_cons, if_neg hp] at h
      have := ih (by omega)
      omega

/-- With fuel at least the current entry count, the eviction pass brings
the count at or under the cap. -/
theorem enforceMaxAux_le (cfg : FileCacheConfig) (m : Nat) :
    ∀ (fuel : Nat) (fs : FileState), countValues cfg fs ≤ fuel →
      countValues cfg (enforceMaxAux cfg m fuel fs) ≤ m := by
  intro fuel
  induction fuel with
  | zero =>
    intro fs h
    rw [enforceMaxAux]
    omega
  | succ f ih =>
    intro fs h
    rw [enforceMaxAux]
    by_cases hle : countValues cfg fs ≤ m
    · rw [if_pos hle]
      exact hle
    · rw [if_neg hle]
      have hpos : 0 < countValues cfg fs := by omega
      have hdec := countValues_evictOldest cfg fs hpos
      exact ih (evictOldest cfg fs) (by omega)

/-- The entry count never exceeds the file count. -/
theorem countValues_le_length (cfg : FileCacheConfig) (fs : FileState) :
    countValues cfg fs ≤ fs.length :=
  List.length_filter_le _ fs

/-! ## Claim C2 -/

/-- C2: for a file backend configured with `max_entries`, after every
successful write the number of stored entries is at or under the cap, and
entries are evicted oldest-first by creation/modification order (FIFO,
not LRU-by-access); concretely, with `max_entries = 1`, writing key A
then key B leaves B retrievable and A evicted (`get` of A reports
absence). -/
theorem claim_C2_bounded_eviction :
    (∀ (cfg : FileCacheConfig) (now : ℚ) (fs : FileState) (key : String)
        (v : PyValue) (ttl : Option ℚ) (m : Nat) (fs2 : FileState),
      cfg.max_entries = some m → fileSet cfg now fs key v ttl = .ok fs2 →
      countValues cfg fs2 ≤ m) ∧
    (∃ fs1 fs2 fs3 fs4 : FileState,
      fileSet { name := "f", directory := "d", max_entries := some 1 } 0 []
        "k1" (.int 1) Option.none = .ok fs1 ∧
      fileSet { name := "f", directory := "d", max_entries := some 1 } 0 fs1
        "k2" (.int 2) Option.none = .ok fs2 ∧
      fileGet { name := "f", directory := "d", max_entries := some 1 } 0 fs2
        "k1" = .ok (Option.none, fs3) ∧
      fileGet { name := "f", directory := "d", max_entries := some 1 } 0 fs2
        "k2" = .ok (some (.int 2), fs4)) := by
  constructor
  · intro cfg now fs key v ttl m fs2 hm hset
    rw [fileSet] at hset
    cases hnk : normalize_key key with
    | error e =>
      simp only [hnk] at hset
      exact Except.noConfusion hset
    | ok k =>
      simp only [hnk] at hset
      cases hser : default_serializer cfg.serializer with
      | error e =>
        simp only [hser] at hset
        exact Except.noConfusion hset
      | ok sd =>
        simp only [hser] at hset
        cases henc : sd.1 v with
        | error e =>
          simp only [henc] at hset
          exact Except.noConfusion hset
        | ok bs =>
          simp only [henc, Except.ok.injEq] at hset
          rw [← hset, fileEvict.eq_def, hm]
          exact enforceMaxAux_le cfg m _ _ (countValues_le_length cfg _)
  · exact ⟨_, _, _, _, rfl, rfl, rfl, rfl⟩

/-- Witness for C2's cap invariant: writing one entry into an empty
directory with `max_entries = 1` leaves exactly at most one entry. -/
theorem claim_C2_bounded_eviction_witness :
    ({ name := "f", directory := "d", max_entries := some 1 } :
        FileCacheConfig).max_entries = some 1 ∧
    ∃ fs1 : FileState,
      fileSet { name := "f", directory := "d", max_entries := some 1 } 0 []
        "k1" (.int 1) Option.none = .ok fs1 ∧
      countValues { name := "f", directory := "d", max_entries := some 1 }
        fs1 ≤ 1 :=
  ⟨rfl, _, rfl,
    claim_C2_bounded_eviction.1
      { name := "f", directory := "d", max_entries := some 1 } 0 [] "k1"
      (.int 1) Option.none 1 _ rfl rfl⟩

/-! ## Claim C8 -/

/-- C8 (counterexample to the claim as stated): a key whose value file
holds undecodable bytes but whose sidecar records an already-elapsed
expiry is lazily evicted by the read — the read reports a miss and
deletes both files instead of raising a backend error, because the
sidecar-first expiry check runs before the value bytes are ever
decoded. -/
theorem claim_C8_corruption_counterexample :
    fsLookup
      [(path_for { name := "f", directory := "d" } "bad", [255, 254, 253]),
       (sidecarPath (path_for { name := "f", directory := "d" } "bad"),
        utf8EncodeChars (ratChars 0))]
      (path_for { name := "f", directory := "d" } "bad") =
        some [255, 254, 253] ∧
    jsonDeserialize [255, 254, 253] =
      .error (.serializationError "stored bytes are not valid UTF-8") ∧
    fileGet { name := "f", directory := "d" } 1
      [(path_for { name := "f", directory := "d" } "bad", [255, 254, 253]),
       (sidecarPath (path_for { name := "f", directory := "d" } "bad"),
        utf8EncodeChars (ratChars 0))] "bad" =
      .ok (Option.none, []) :=
  ⟨rfl, rfl, rfl⟩

/-- C8 (amended): on the file backend, reading a stored value whose bytes
cannot be decoded by the configured serializer always raises a backend
error (`CacheBackendError`) and is never reported as a miss, for every
key whose value file exists with undecodable content and whose entry is
not expired (no sidecar, or a sidecar recording a still-future instant);
an expired entry is lazily evicted and reported absent without its value
bytes being read. -/
theorem claim_C8_corruption_error
    (cfg : FileCacheConfig) (now : ℚ) (fs : FileState) (key k : String)
    (bs : List Nat) (err : CacheError)
    (hser : cfg.serializer = "json") (hk : normalize_key key = .ok k)
    (hv : fsLookup fs (path_for cfg k) = some bs)
    (hdec : jsonDeserialize bs = .error err)
    (hside : ∀ tb : List Nat,
      fsLookup fs (sidecarPath (path_for cfg k)) = some tb →
      ∃ e : ℚ, parseExpiry tb = some e ∧ ¬ e ≤ now) :
    fileGet cfg now fs key =
      .error (.backendError "failed to deserialize cached value"
        (some (errMessage err))) := by
  have hds : default_serializer "json" = .ok (jsonSerialize, jsonDeserialize) :=
    rfl
  rw [fileGet, hk]
  cases hsc : fsLookup fs (sidecarPath (path_for cfg k)) with
  | none =>
    simp only [hser, hds, hsc]
    rw [fileReadValue]
    simp only [hv, hdec]
  | some tb =>
    obtain ⟨e, hpe, hne⟩ := hside tb hsc
    simp only [hser, hds, hsc, hpe]
    rw [if_neg hne, fileReadValue]
    simp only [hv, hdec]

/-- Witness for the amended C8: a value file holding the bytes
`FF FE FD` (invalid UTF-8, hence undecodable JSON) with no sidecar makes
the next read fail with the backend error, not a miss. -/
theorem claim_C8_corruption_error_witness :
    fsLookup [(path_for { name := "f", directory := "d" } "bad",
        [255, 254, 253])]
      (path_for { name := "f", directory := "d" } "bad") =
        some [255, 254, 253] ∧
    fileGet { name := "f", directory := "d" } 1
      [(path_for { name := "f", directory := "d" } "bad", [255, 254, 253])]
      "bad" =
      .error (.backendError "failed to deserialize cached value"
        (some "stored bytes are not valid UTF-8")) :=
  ⟨rfl,
    claim_C8_corruption_error { name := "f", directory := "d" } 1
      [(path_for { name := "f", directory := "d" } "bad", [255, 254, 253])]
      "bad" "bad" [255, 254, 253]
      (.serializationError "stored bytes are not valid UTF-8")
      rfl rfl rfl rfl
      (by
        intro tb htb
        rw [show fsLookup [(path_for { name := "f", directory := "d" } "bad",
          [255, 254, 253])] (sidecarPath
            (path_for { name := "f", directory := "d" } "bad")) =
          Option.none from rfl] at htb
        exact Option.noConfusion htb)⟩

/-! ## Cache manager (`jinpy_utils/cache/core.py` / `config.py`) -/

/-- Modelled from the spec (§3, §6): a named backend configuration entry;
`enabled` defaults to true. -/
structure BackendCfg where
  name : String
  enabled : Bool := true
deriving DecidableEq, Repr

/-- Modelled from the spec (§3, §6): the manager configuration — an
ordered sequence of backend configs plus an optional default-backend
name. -/
structure CacheManagerCfg where
  backends : List BackendCfg
  default_backend : Option String := none
deriving DecidableEq, Repr

/-- Modelled from the spec (§4.8): a constructed manager holds the fixed
registry of enabled backends and the resolved default-backend name. -/
structure CacheManager where
  registry : List BackendCfg
  default : String
deriving DecidableEq, Repr

/-- Modelled from the spec (§3, §4.8): manager construction validates the
configuration — duplicate backend names, an empty enabled-backend set,
and a `default_backend` that does not name an enabled backend are each
rejected with a configuration error at construction time; otherwise the
registry is the enabled backends and the default is the given name, or
the first enabled backend when unset. -/
def managerInit (cfg : CacheManagerCfg) : Except CacheError CacheManager :=
  if (cfg.backends.map (fun b => b.name)).Nodup then
    match cfg.backends.filter (fun b => b.enabled) with
    | [] => .error (.configurationError "no enabled backends")
    | b :: bs =>
      match cfg.default_backend with
      | none => .ok { registry := b :: bs, default := b.name }
      | some d =>
        if (b :: bs).any (fun e => e.name == d) then
          .ok { registry := b :: bs, default := d }
        else
          .error (.configurationError
            "default_backend does not name an enabled backend")
  else
    .error (.configurationError "duplicate backend names")

/-- C6: manager construction raises a configuration error exactly when
two backend configs share a name, or no backend is enabled, or
`default_backend` names an absent/disabled backend — and every
construction failure is a configuration error (detected at construction,
never deferred). -/
theorem claim_C6_manager_validation (cfg : CacheManagerCfg) :
    ((∃ msg, managerInit cfg = .error (.configurationError msg)) ↔
      (¬ (cfg.backends.map (fun b => b.name)).Nodup ∨
       (∀ b ∈ cfg.backends, b.enabled = false) ∨
       (∃ d, cfg.default_backend = some d ∧
         ∀ b ∈ cfg.backends, b.enabled = true → b.name ≠ d))) ∧
    (∀ e, managerInit cfg = .error e →
      ∃ msg, e = CacheError.configurationError msg) := by
  by_cases hnd : (cfg.backends.map (fun b => b.name)).Nodup
  · cases hfil : cfg.backends.filter (fun b => b.enabled) with
    | nil =>
      have hm : managerInit cfg =
          .error (.configurationError "no enabled backends") := by
        rw [managerInit, if_pos hnd]
        simp only [hfil]
      rw [hm]
      refine ⟨⟨fun _ => ?_, fun _ => ⟨"no enabled backends", rfl⟩⟩,
        fun e he => ?_⟩
      · right; left
        intro b hb
        have hnb := List.filter_eq_nil_iff.mp hfil b hb
        simpa using hnb
      · injection he with h
        exact ⟨"no enabled backends", h.symm⟩
    | cons b bs =>
      cases hdef : cfg.default_backend with
      | none =>
        have hm : managerInit cfg =
            .ok { registry := b :: bs, default := b.name } := by
          rw [managerInit, if_pos hnd]
          simp only [hfil, hdef]
        rw [hm]
        refine ⟨⟨fun h => absurd h.choose_spec (fun hc => Except.noConfusion hc),
          fun h => ?_⟩, fun e he => Except.noConfusion he⟩
        rcases h with h | h | h
        · exact absurd hnd h
        · have hb : b ∈ cfg.backends.filter (fun x => x.enabled) := by
            rw [hfil]; exact List.mem_cons_self _ _
          have hb2 := List.mem_filter.mp hb
          have hfalse := h b hb2.1
          have htrue : b.enabled = true := hb2.2
          rw [htrue] at hfalse
          exact Bool.noConfusion hfalse
        · obtain ⟨d, hd, _⟩ := h
          exact Option.noConfusion hd
      | some d =>
        by_cases ha : ((b :: bs).any (fun e => e.name == d)) = true
        · have hm : managerInit cfg = .ok { registry := b :: bs, default := d } := by
            rw [managerInit, if_pos hnd]
            simp only [hfil, hdef]
            rw [if_pos ha]
          rw [hm]
          refine ⟨⟨fun h => absurd h.choose_spec (fun hc => Except.noConfusion hc),
            fun h => ?_⟩, fun e he => Except.noConfusion he⟩
          rcases h with h | h | h
          · exact absurd hnd h
          · have hb : b ∈ cfg.backends.filter (fun x => x.enabled) := by
              rw [hfil]; exact List.mem_cons_self _ _
            have hb2 := List.mem_filter.mp hb
            have hfalse := h b hb2.1
            have htrue : b.enabled = true := hb2.2
            rw [htrue] at hfalse
            exact Bool.noConfusion hfalse
          · obtain ⟨d', hd', hall⟩ := h
            injection hd' with hdd
            obtain ⟨x, hx, hpx⟩ := List.any_eq_true.mp ha
            have hxf : x ∈ cfg.backends.filter (fun e => e.enabled) := by
              rw [hfil]; exact hx
            have hx2 := List.mem_filter.mp hxf
            have hxn : x.name = d := beq_iff_eq.mp hpx
            exact absurd (hdd ▸ hxn) (hall x hx2.1 hx2.2)
        · have hm : managerInit cfg =
              .error (.configurationError
                "default_backend does not name an enabled backend") := by
            rw [managerInit, if_pos hnd]
            simp only [hfil, hdef]
            rw [if_neg ha]
          rw [hm]
          refine ⟨⟨fun _ => ?_, fun _ =>
            ⟨"default_backend does not name an enabled backend", rfl⟩⟩,
            fun e he => ?_⟩
          · right; right
            refine ⟨d, rfl, ?_⟩
            intro b' hb' hen hname
            apply ha
            refine List.any_eq_true.mpr ⟨b', ?_, ?_⟩
            · rw [← hfil]
              exact List.mem_filter.mpr ⟨hb', hen⟩
            · exact beq_iff_eq.mpr hname
          · injection he with h
            exact ⟨"default_backend does not name an enabled backend", h.symm⟩
  · have hm : managerInit cfg =
        .error (.configurationError "duplicate backend names") := by
      rw [managerInit, if_neg hnd]
    rw [hm]
    refine ⟨⟨fun _ => Or.inl hnd, fun _ => ⟨"duplicate backend names", rfl⟩⟩,
      fun e he => ?_⟩
    injection he with h
    exact ⟨"duplicate backend names", h.symm⟩

/-- Witness for C6: a configuration with two backends both named `"x"` is
rejected with a configuration error. -/
theorem claim_C6_manager_validation_witness :
    managerInit ⟨[⟨"x", true⟩, ⟨"x", true⟩], none⟩ =
      .error (.configurationError "duplicate backend names") ∧
    (∃ msg, managerInit ⟨[⟨"x", true⟩, ⟨"x", true⟩], none⟩ =
      .error (.configurationError msg)) :=
  ⟨rfl, (claim_C6_manager_validation _).1.mpr (Or.inl (by decide))⟩

/-! ## Remote (redis) backend (`jinpy_utils/cache/backends.py`,
`RedisCacheBackend`)

Modelled from the spec (§4.6) and the dummy client in
`src/tests/cache/test_cache_backends.py`: the underlying client holds a
byte store and a TTL table and is modelled with a `failing` field — when
it is `some m`, every client primitive raises the foreign error `m`,
matching the `Raising` client of the error-path test.  The backend wraps
every foreign error as a backend error carrying the original cause, and
construction (`from_url` + liveness ping) wraps failures as connection
errors. -/

/-- Modelled from the test's `_DummyRedisClient`: the underlying remote
client — a byte store, a TTL table, and a failure switch standing for
"the next primitive call raises this foreign exception". -/
structure RedisClient where
  store : FileState
  ttls : List (String × Int)
  failing : Option String := none
deriving DecidableEq, Repr

/-- Lookup in the client's TTL table. -/
def ttlsLookup : List (String × Int) → String → Option Int
  | [], _ => none
  | (p, t) :: rest, k => if p = k then some t else ttlsLookup rest k

/-- Remove a key from the client's TTL table. -/
def ttlsErase : List (String × Int) → String → List (String × Int)
  | [], _ => []
  | (p, t) :: rest, k =>
    if p = k then ttlsErase rest k else (p, t) :: ttlsErase rest k

/-- Write a key's TTL in the client's TTL table. -/
def ttlsWrite (l : List (String × Int)) (k : String) (t : Int) :
    List (String × Int) :=
  ttlsErase l k ++ [(k, t)]

/-- Decode stored bytes as the decimal text of an integer (the server's
numeric view of a value, used by `incrby`/`decrby`). -/
def bytesToInt? (bs : List Nat) : Option Int :=
  match utf8Decode bs with
  | none => none
  | some s =>
    match parseInt s.data with
    | some (n, []) => some n
    | _ => none

/-- Client primitive: liveness ping. -/
def redisPing (c : RedisClient) : Except String Bool :=
  match c.failing with
  | some m => .error m
  | none => .ok true

/-- Client primitive: `GET`. -/
def redisRawGet (c : RedisClient) (k : String) :
    Except String (Option (List Nat)) :=
  match c.failing with
  | some m => .error m
  | none => .ok (fsLookup c.store k)

/-- Client primitive: `SET` with optional expiry seconds. -/
def redisRawSet (c : RedisClient) (k : String) (v : List Nat)
    (t : Option Int) : Except String RedisClient :=
  match c.failing with
  | some m => .error m
  | none =>
    .ok { c with
      store := fsWrite c.store k v,
      ttls := match t with
        | none => ttlsErase c.ttls k
        | some tt => ttlsWrite c.ttls k tt }

/-- Client primitive: `DEL` on a list of keys, returning the number of
keys that existed. -/
def redisRawDeleteKeys (c : RedisClient) (ks : List String) :
    Except String (Nat × RedisClient) :=
  match c.failing with
  | some m => .error m
  | none =>
    .ok (ks.foldl
      (fun acc k =>
        ((if (fsLookup acc.2.store k).isSome then acc.1 + 1 else acc.1),
         { acc.2 with
            store := fsErase acc.2.store k,
            ttls := ttlsErase acc.2.ttls k }))
      (0, c))

/-- Client primitive: `EXISTS`. -/
def redisRawExists (c : RedisClient) (k : String) : Except String Bool :=
  match c.failing with
  | some m => .error m
  | none => .ok (fsLookup c.store k).isSome

/-- Client primitive: one `SCAN` page — returns the next cursor and a
page of keys (cursor 0 means the scan is complete). -/
def redisRawScan (c : RedisClient) (cursor : Nat) :
    Except String (Nat × List String) :=
  match c.failing with
  | some m => .error m
  | none => .ok (0, (c.store.map (fun p => p.1)).drop cursor)

/-- Client primitive: `MGET` — one multi-get, absent keys map to
`none`. -/
def redisRawMget (c : RedisClient) (ks : List String) :
    Except String (List (Option (List Nat))) :=
  match c.failing with
  | some m => .error m
  | none => .ok (ks.map (fsLookup c.store))

/-- Client primitive: pipelined batch write (`pipeline` + `execute`). -/
def redisRawPipelineExec (c : RedisClient)
    (kvs : List (String × List Nat)) : Except String RedisClient :=
  match c.failing with
  | some m => .error m
  | none =>
    .ok (kvs.foldl
      (fun c2 kv => { c2 with store := fsWrite c2.store kv.1 kv.2 }) c)

/-- Client primitive: `INCRBY` — the value is created at 0 when absent,
and must be decimal-integer text. -/
def redisRawIncrby (c : RedisClient) (k : String) (amount : Int) :
    Except String (Int × RedisClient) :=
  match c.failing with
  | some m => .error m
  | none =>
    match (match fsLookup c.store k with
           | none => some 0
           | some bs => bytesToInt? bs) with
    | none => .error "value is not an integer"
    | some cur =>
      .ok (cur + amount,
        { c with store :=
            fsWrite c.store k (utf8EncodeChars (intChars (cur + amount))) })

/-- Client primitive: `DECRBY`. -/
def redisRawDecrby (c : RedisClient) (k : String) (amount : Int) :
    Except String (Int × RedisClient) :=
  match c.failing with
  | some m => .error m
  | none =>
    match (match fsLookup c.store k with
           | none => some 0
           | some bs => bytesToInt? bs) with
    | none => .error "value is not an integer"
    | some cur =>
      .ok (cur - amount,
        { c with store :=
            fsWrite c.store k (utf8EncodeChars (intChars (cur - amount))) })

/-- Client primitive: `TTL` — remaining seconds, `-1` when the key has no
expiry. -/
def redisRawTtl (c : RedisClient) (k : String) : Except String Int :=
  match c.failing with
  | some m => .error m
  | none =>
    .ok (match ttlsLookup c.ttls k with
         | none => -1
         | some t => t)

/-- Client primitive: `EXPIRE`. -/
def redisRawExpire (c : RedisClient) (k : String) (t : Int) :
    Except String RedisClient :=
  match c.failing with
  | some m => .error m
  | none => .ok { c with ttls := ttlsWrite c.ttls k t }

/-- Modelled from the spec (§4.6, §7): translate a foreign client error
into the generic backend error carrying the original cause — no foreign
exception escapes the backend's contract. -/
def wrapForeign (msg : String) : Except String α → Except CacheError α
  | .ok a => .ok a
  | .error m => .error (.backendError msg (some m))

/-- Backend operation `get`. -/
def redisGet (c : RedisClient) (k : String) :
    Except CacheError (Option (List Nat)) :=
  wrapForeign "redis get failed" (redisRawGet c k)

/-- Backend operation `set`. -/
def redisSet (c : RedisClient) (k : String) (v : List Nat)
    (t : Option Int) : Except CacheError RedisClient :=
  wrapForeign "redis set failed" (redisRawSet c k v t)

/-- Backend operation `delete`. -/
def redisDelete (c : RedisClient) (k : String) :
    Except CacheError (Nat × RedisClient) :=
  wrapForeign "redis delete failed" (redisRawDeleteKeys c [k])

/-- Backend operation `exists`. -/
def redisExists (c : RedisClient) (k : String) : Except CacheError Bool :=
  wrapForeign "redis exists failed" (redisRawExists c k)

/-- Modelled from the spec (§4.6): the `clear` scan loop — request a page
of keys by cursor, delete the page, and continue until the cursor
returns to 0, tolerating an empty page mid-scan. -/
def redisClearLoop : Nat → Nat → RedisClient → Except String RedisClient
  | 0, _, c => .ok c
  | fuel + 1, cursor, c =>
    match redisRawScan c cursor with
    | .error m => .error m
    | .ok (next, page) =>
      match redisRawDeleteKeys c page with
      | .error m => .error m
      | .ok (_, c2) =>
        if next = 0 then .ok c2 else redisClearLoop fuel next c2

/-- Backend operation `clear`. -/
def redisClear (c : RedisClient) : Except CacheError RedisClient :=
  wrapForeign "redis clear failed"
    (redisClearLoop (c.store.length + 1) 0 c)

/-- Backend operation `get_many` (one multi-get; absent entries map to
the missing marker). -/
def redisGetMany (c : RedisClient) (ks : List String) :
    Except CacheError (List (Option (List Nat))) :=
  wrapForeign "redis get_many failed" (redisRawMget c ks)

/-- Backend operation `set_many` (single pipelined batch write). -/
def redisSetMany (c : RedisClient) (kvs : List (String × List Nat)) :
    Except CacheError RedisClient :=
  wrapForeign "redis set_many failed" (redisRawPipelineExec c kvs)

/-- Backend operation `delete_many`. -/
def redisDeleteMany (c : RedisClient) (ks : List String) :
    Except CacheError (Nat × RedisClient) :=
  wrapForeign "redis delete_many failed" (redisRawDeleteKeys c ks)

/-- Backend operation `incr` (delegates to the server's atomic
`INCRBY`). -/
def redisIncr (c : RedisClient) (k : String) (amount : Int) :
    Except CacheError (Int × RedisClient) :=
  wrapForeign "redis incr failed" (redisRawIncrby c k amount)

/-- Backend operation `decr` (delegates to the server's atomic
`DECRBY`). -/
def redisDecr (c : RedisClient) (k : String) (amount : Int) :
    Except CacheError (Int × RedisClient) :=
  wrapForeign "redis decr failed" (redisRawDecrby c k amount)

/-- Backend operation `ttl` (server-native TTL introspection; a negative
server answer means "no expiry" and maps to `none`). -/
def redisTtl (c : RedisClient) (k : String) :
    Except CacheError (Option Int) :=
  wrapForeign "redis ttl failed"
    (match redisRawTtl c k with
     | .error m => .error m
     | .ok t => .ok (if t < 0 then none else some t))

/-- Backend operation `touch` (server-native TTL extension). -/
def redisTouch (c : RedisClient) (k : String) (t : Int) :
    Except CacheError RedisClient :=
  wrapForeign "redis touch failed" (redisRawExpire c k t)

/-- Modelled from the spec (§4.6): construction — the result of the
`from_url` call followed by a liveness ping; a failure of either step is
raised immediately as a connection error carrying the cause. -/
def redisConnect (r : Except String RedisClient) :
    Except CacheError RedisClient :=
  match r with
  | .error m => .error (.connectionError "failed to connect to redis" (some m))
  | .ok c =>
    match redisPing c with
    | .error m =>
      .error (.connectionError "failed to connect to redis" (some m))
    | .ok _ => .ok c

/-- C7: on a client whose next call raises the foreign error `m`, every
one of the twelve backend operations (get, set, delete, exists, clear,
get_many, set_many, delete_many, incr, decr, ttl, touch) surfaces a
`CacheBackendError` carrying `m` as its cause — no foreign error
escapes — and construction failure (a failing `from_url` or a failing
liveness ping) raises a `CacheConnectionError` immediately. -/
theorem claim_C7_redis_error_translation
    (c : RedisClient) (m : String) (hf : c.failing = some m)
    (k : String) (v : List Nat) (t : Option Int) (amt tt : Int)
    (ks : List String) (kvs : List (String × List Nat)) :
    redisGet c k = .error (.backendError "redis get failed" (some m)) ∧
    redisSet c k v t =
      .error (.backendError "redis set failed" (some m)) ∧
    redisDelete c k =
      .error (.backendError "redis delete failed" (some m)) ∧
    redisExists c k =
      .error (.backendError "redis exists failed" (some m)) ∧
    redisClear c = .error (.backendError "redis clear failed" (some m)) ∧
    redisGetMany c ks =
      .error (.backendError "redis get_many failed" (some m)) ∧
    redisSetMany c kvs =
      .error (.backendError "redis set_many failed" (some m)) ∧
    redisDeleteMany c ks =
      .error (.backendError "redis delete_many failed" (some m)) ∧
    redisIncr c k amt =
      .error (.backendError "redis incr failed" (some m)) ∧
    redisDecr c k amt =
      .error (.backendError "redis decr failed" (some m)) ∧
    redisTtl c k = .error (.backendError "redis ttl failed" (some m)) ∧
    redisTouch c k tt =
      .error (.backendError "redis touch failed" (some m)) ∧
    (∀ fm : String, redisConnect (.error fm) =
      .error (.connectionError "failed to connect to redis" (some fm))) ∧
    redisConnect (.ok c) =
      .error (.connectionError "failed to connect to redis" (some m)) := by
  refine ⟨?_, ?_, ?_, ?_, ?_, ?_, ?_, ?_, ?_, ?_, ?_, ?_, fun fm => rfl, ?_⟩
  · simp only [redisGet, redisRawGet, hf, wrapForeign]
  · simp only [redisSet, redisRawSet, hf, wrapForeign]
  · simp only [redisDelete, redisRawDeleteKeys, hf, wrapForeign]
  · simp only [redisExists, redisRawExists, hf, wrapForeign]
  · simp only [redisClear, redisClearLoop, redisRawScan, hf, wrapForeign]
  · simp only [redisGetMany, redisRawMget, hf, wrapForeign]
  · simp only [redisSetMany, redisRawPipelineExec, hf, wrapForeign]
  · simp only [redisDeleteMany, redisRawDeleteKeys, hf, wrapForeign]
  · simp only [redisIncr, redisRawIncrby, hf, wrapForeign]
  · simp only [redisDecr, redisRawDecrby, hf, wrapForeign]
  · simp only [redisTtl, redisRawTtl, hf, wrapForeign]
  · simp only [redisTouch, redisRawExpire, hf, wrapForeign]
  · simp only [redisConnect, redisPing, hf]

/-- Witness for C7: a concrete client failing with `"boom"` surfaces the
backend error with cause `"boom"` on `get`. -/
theorem claim_C7_redis_error_translation_witness :
    ({ store := [("a", [49])], ttls := [], failing := some "boom" } :
        RedisClient).failing = some "boom" ∧
    redisGet
      { store := [("a", [49])], ttls := [], failing := some "boom" } "k" =
      .error (.backendError "redis get failed" (some "boom")) :=
  ⟨rfl,
    (claim_C7_redis_error_translation
      { store := [("a", [49])], ttls := [], failing := some "boom" }
      "boom" rfl "k" [48] (some 5) 2 3 ["a"] [("x", [49])]).1⟩

/-! ## Claims C4 and C9 -/

/-- C4: composing the TTL utilities satisfies: `remaining_ttl
(compute_expiry t)` is `0` for every `t ≤ 0`, is the no-expiry value
(`none`) when `t` is unset, and is non-negative for every `t > 0`; and
`remaining_ttl` alone maps the no-expiry value to the no-expiry value and
any past-or-equal-to-now instant to `0`, never a negative number.  The two
utility calls may happen at different instants `now₁ ≤ now₂` of the
monotonic clock. -/
theorem claim_C4_ttl_utilities (now₁ now₂ : ℚ) (hmono : now₁ ≤ now₂) :
    (∀ t : ℚ, t ≤ 0 →
      remaining_ttl now₂ (compute_expiry now₁ (some t)) = some 0) ∧
    remaining_ttl now₂ (compute_expiry now₁ none) = none ∧
    (∀ t : ℚ, 0 < t → ∃ r : ℚ,
      remaining_ttl now₂ (compute_expiry now₁ (some t)) = some r ∧ 0 ≤ r) ∧
    remaining_ttl now₂ none = none ∧
    (∀ e : ℚ, e ≤ now₂ → remaining_ttl now₂ (some e) = some 0) ∧
    (∀ e r : ℚ, remaining_ttl now₂ (some e) = some r → 0 ≤ r) := by
  refine ⟨?_, rfl, ?_, rfl, ?_, ?_⟩
  · intro t ht
    simp only [compute_expiry, remaining_ttl, Option.some.injEq]
    have : now₁ + t - now₂ ≤ 0 := by linarith
    exact max_eq_right this
  · intro t _
    refine ⟨max (now₁ + t - now₂) 0, rfl, le_max_right _ _⟩
  · intro e he
    simp only [remaining_ttl, Option.some.injEq]
    exact max_eq_right (by linarith)
  · intro e r hr
    simp only [remaining_ttl, Option.some.injEq] at hr
    subst hr
    exact le_max_right _ _

/-- Witness for C4 at the concrete instants `now₁ = 3`, `now₂ = 5`. -/
theorem claim_C4_ttl_utilities_witness :
    (3 : ℚ) ≤ 5 ∧
    ((∀ t : ℚ, t ≤ 0 →
      remaining_ttl 5 (compute_expiry 3 (some t)) = some 0) ∧
    remaining_ttl 5 (compute_expiry 3 none) = none ∧
    (∀ t : ℚ, 0 < t → ∃ r : ℚ,
      remaining_ttl 5 (compute_expiry 3 (some t)) = some r ∧ 0 ≤ r) ∧
    remaining_ttl 5 none = none ∧
    (∀ e : ℚ, e ≤ 5 → remaining_ttl 5 (some e) = some 0) ∧
    (∀ e r : ℚ, remaining_ttl 5 (some e) = some r → 0 ≤ r)) :=
  ⟨by norm_num, claim_C4_ttl_utilities 3 5 (by norm_num)⟩

/-- C9: the key normalizer strips leading/trailing whitespace and all
zero-width/invisible Unicode characters (so `normalize_key "  key \t "`
returns `"key"` and `"a\n\tb\u200b"` returns `"ab"`), and raises the
invalid-argument error of the `CacheKeyError` class for every key whose
normalized result is empty. -/
theorem claim_C9_normalize_key :
    normalize_key "  key \t " = .ok "key" ∧
    normalize_key "a\n\tb\u200b" = .ok "ab" ∧
    ∀ key : String,
      (key.toList.filter (fun c => !isInvisibleChar c)).isEmpty = true →
      normalize_key key =
        .error (.keyError "cache key is empty after normalization") := by
  refine ⟨rfl, rfl, ?_⟩
  intro key h
  simp only [normalize_key]
  rw [h]
  rfl

/-- Witness for C9: a key consisting only of whitespace normalizes to the
empty string and is rejected with the `CacheKeyError`-class error. -/
theorem claim_C9_normalize_key_witness :
    ("   ".toList.filter (fun c => !isInvisibleChar c)).isEmpty = true ∧
    normalize_key "   " =
      .error (.keyError "cache key is empty after normalization") :=
  ⟨by decide, claim_C9_normalize_key.2.2 "   " (by decide)⟩

end JinpyCache
